import Mathlib

/-!
Verification of the Hours-of-Service (HOS) duty-status scheduler of the
spotterai ELD frontend.

The development shallowly embeds the core module (the file exporting
`generateDutyEvents` and `splitEventsIntoDays`, plus its helpers `getDist`
and `getCoordinateAtDistance`) together with the data model from the
`types` module and the FMCSA profile constant.

Modelling conventions, chosen to stay faithful to the JavaScript runtime:

* Timestamps are `Int` milliseconds since the Unix epoch.  A JS `Date`
  always stores an integer number of milliseconds; constructing a `Date`
  from a non-integral number truncates it, which for the non-negative
  time values arising here coincides with `Int.floor`.  The host timezone
  is taken to be UTC, so the `setHours(0,0,0,0)` local-midnight flooring
  and the UTC date key `toISOString().split('T')[0]` of the source agree:
  local midnight of `t` is `t - t % 86400000` and the date key is the day
  index `t / 86400000`.
* All other JS numbers are modelled as exact rationals `ℚ` (ideal
  arithmetic in place of IEEE-754 doubles).
* The two `while` loops of `generateDutyEvents` have no syntactic bound,
  so they are embedded with an explicit iteration budget `fuel`; a run
  that does not finish within its budget yields `none`.  All theorems
  about terminating runs are stated for any budget that returns `some`.
* The haversine helper `getDist` uses the transcendental functions
  `sin`, `cos`, `atan2` and `sqrt`; it is embedded over `ℝ` (necessarily
  noncomputably).  The scheduler and the position interpolator only
  consume a distance function, so they are parameterised by an abstract
  `dist : ℚ × ℚ → ℚ × ℚ → ℚ` (kept executable); the interpolator is
  defined generically over a linear ordered field and is instantiated
  both at `ℚ` (for the scheduler) and at `ℝ` with the haversine (for the
  claims about `getCoordinateAtDistance` itself).
-/

/-- The four duty statuses of the data model (`types` module). -/
inductive DutyStatus where
  | off_duty
  | sleeper_berth
  | driving
  | on_duty_not_driving
deriving DecidableEq, Repr

/-- Per-status flags of `HosProfileConfig.dutyStatuses`. -/
structure DutyStatusFlags where
  countsTowardDriving : Bool
  countsTowardOnDuty : Bool
  countsTowardDutyWindow : Bool
  qualifiesAsRest : Bool
deriving DecidableEq, Repr

/-- The `Record<DutyStatus, ...>` of per-status flags, one field per status. -/
structure DutyStatusMap where
  off_duty : DutyStatusFlags
  sleeper_berth : DutyStatusFlags
  driving : DutyStatusFlags
  on_duty_not_driving : DutyStatusFlags
deriving DecidableEq, Repr

/-- `HosProfileConfig.shiftRules`. -/
structure ShiftRules where
  minOffDutyBeforeShiftHours : ℚ
  maxDrivingHours : ℚ
  maxDutyWindowHours : ℚ
  allowDrivingAfterDutyWindow : Bool
deriving DecidableEq, Repr

/-- `HosProfileConfig.breakRules`. -/
structure BreakRules where
  requiredAfterDrivingHours : ℚ
  breakDurationMinutes : ℚ
  qualifyingStatuses : List DutyStatus
  mustBeContinuous : Bool
deriving DecidableEq, Repr

/-- The HOS profile.  The `cycleRules`, `sleeperBerthRules`, `exceptions`,
`timeRules` and `alerts` sub-configurations of the source type are accepted
by the surrounding system but never read by the scheduler core (spec §3);
they are omitted from the embedding. -/
structure HosProfileConfig where
  profileId : String
  label : String
  dutyStatuses : DutyStatusMap
  shiftRules : ShiftRules
  breakRules : BreakRules
deriving DecidableEq, Repr

/-- A named waypoint (`Location` in the source types). -/
structure Waypoint where
  address : String
  lat : ℚ
  lng : ℚ
deriving DecidableEq, Repr

/-- The three named waypoints of `RouteResult.points`. -/
structure RoutePoints where
  origin : Waypoint
  pickup : Waypoint
  dropoff : Waypoint
deriving DecidableEq, Repr

/-- `RouteResult` of the source types. -/
structure RouteResult where
  distanceMiles : ℚ
  durationHours : ℚ
  polyline : List (ℚ × ℚ)
  instructions : List String
  points : RoutePoints
deriving DecidableEq, Repr

/-- `DutyEvent`.  `start`/`end` are epoch milliseconds; `lat`/`lng` are
optional in the source type but always set by the scheduler's `addEvent`. -/
structure DutyEvent where
  status : DutyStatus
  start : Int
  «end» : Int
  location : String
  remarks : String
  lat : ℚ
  lng : ℚ
deriving DecidableEq, Repr

/-- The `Record<DutyStatus, number>` of per-day totals, one field per status. -/
structure Totals where
  off_duty : ℚ
  sleeper_berth : ℚ
  driving : ℚ
  on_duty_not_driving : ℚ
deriving DecidableEq, Repr

/-- `DailyLog`.  The source keys logs by the ISO date string
`"YYYY-MM-DD"`; under the UTC convention that string is in order-preserving
bijection with the day index `Int`, which is what `date` stores here. -/
structure DailyLog where
  date : Int
  events : List DutyEvent
  totals : Totals
  totalMiles : ℚ
deriving DecidableEq, Repr

/-- Sum of the four per-status totals of a day. -/
def Totals.sum (t : Totals) : ℚ :=
  t.off_duty + t.sleeper_berth + t.driving + t.on_duty_not_driving

/-- `totals[event.status] += durationHours`. -/
def bumpTotals (status : DutyStatus) (durationHours : ℚ) (t : Totals) : Totals :=
  match status with
  | .off_duty => { t with off_duty := t.off_duty + durationHours }
  | .sleeper_berth => { t with sleeper_berth := t.sleeper_berth + durationHours }
  | .driving => { t with driving := t.driving + durationHours }
  | .on_duty_not_driving => { t with on_duty_not_driving := t.on_duty_not_driving + durationHours }

/-- Milliseconds in a day. -/
def msPerDay : Int := 86400000

/-- Local midnight of the day containing `t` (`setHours(0,0,0,0)` under the
UTC convention). -/
def dayStart (t : Int) : Int := t - t % 86400000

/-- Day index of `t` (the `toISOString().split('T')[0]` date key under the
UTC convention, as days since the epoch). -/
def dayIdx (t : Int) : Int := t / 86400000

/-- JS `String.prototype.startsWith` on character lists. -/
def charsLeadWith : List Char → List Char → Bool
  | [], _ => true
  | _ :: _, [] => false
  | a :: as, b :: bs => a == b && charsLeadWith as bs

/-- Substring occurrence on character lists. -/
def charsContain (needle : List Char) : List Char → Bool
  | [] => charsLeadWith needle []
  | c :: rest => charsLeadWith needle (c :: rest) || charsContain needle rest

/-- JS `s.includes(pat)`. -/
def strIncludes (s pat : String) : Bool := charsContain pat.data s.data

/-- The segment walk of `getCoordinateAtDistance`: iterate over adjacent
vertex pairs accumulating segment lengths; on the first segment whose
cumulative length meets or exceeds the target, interpolate linearly inside
it; past the last segment return the last vertex.  Generic in the ordered
field so that it can be used with the rational scheduler and with the real
haversine alike. -/
def coordGo {α : Type} [LinearOrderedField α] (dist : α × α → α × α → α)
    (targetDist : α) : α → List (α × α) → α × α
  | _, [] => (0, 0)
  | _, [p] => p
  | accumulatedDist, p1 :: p2 :: rest =>
    let segmentDist := dist p1 p2
    if targetDist ≤ accumulatedDist + segmentDist then
      let remaining := targetDist - accumulatedDist
      let frac := remaining / segmentDist
      (p1.1 + (p2.1 - p1.1) * frac, p1.2 + (p2.2 - p1.2) * frac)
    else
      coordGo dist targetDist (accumulatedDist + segmentDist) (p2 :: rest)

/-- `getCoordinateAtDistance` of the source, parameterised by the distance
function: empty polyline yields the `(0,0)` sentinel, a non-positive target
yields the first vertex, otherwise the segment walk runs. -/
def getCoordinateAtDistance {α : Type} [LinearOrderedField α]
    (dist : α × α → α × α → α) (targetDist : α) (polyline : List (α × α)) : α × α :=
  match polyline with
  | [] => (0, 0)
  | p :: rest => if targetDist ≤ 0 then p else coordGo dist targetDist 0 (p :: rest)

/-- Total polyline length: the sum of the pairwise segment distances. -/
def polyLength {α : Type} [LinearOrderedField α]
    (dist : α × α → α × α → α) : List (α × α) → α
  | [] => 0
  | [_] => 0
  | p1 :: p2 :: rest => dist p1 p2 + polyLength dist (p2 :: rest)

/-- The mutable state threaded through one `generateDutyEvents` run: the
emitted events, the `currentTime`/`currentDistance` captured by `addEvent`,
and the four loop accumulators. -/
structure St where
  events : List DutyEvent
  currentTime : Int
  currentDistance : ℚ
  shiftDrivingHours : ℚ
  shiftDutyWindowHours : ℚ
  drivingSinceLastBreakHours : ℚ
  milesSinceFuel : ℚ
deriving DecidableEq, Repr

/-- The `addEvent` closure of `generateDutyEvents`: append an event from
`currentTime` for `durationHours`, annotate it with the interpolated
position at `currentDistance`, advance `currentDistance` by the per-kind
heuristic, and advance `currentTime` to the event's end.  A JS `Date`
truncates its time value to whole milliseconds, hence the floor. -/
def addEvent (dist : ℚ × ℚ → ℚ × ℚ → ℚ) (polyline : List (ℚ × ℚ)) (averageSpeed : ℚ)
    (status : DutyStatus) (durationHours : ℚ) (location remarks : String) (s : St) : St :=
  let endTime : Int := s.currentTime + ⌊durationHours * (60 * 60 * 1000 : ℚ)⌋
  let coords := getCoordinateAtDistance dist s.currentDistance polyline
  let e : DutyEvent :=
    ⟨status, s.currentTime, endTime, location, remarks, coords.1, coords.2⟩
  let newDistance : ℚ :=
    if status = DutyStatus.driving then
      s.currentDistance + durationHours * averageSpeed
    else if status = DutyStatus.on_duty_not_driving ∧ strIncludes remarks "Fueling Stop" = true then
      s.currentDistance + 5
    else if status = DutyStatus.off_duty ∧ strIncludes remarks "Break" = true then
      s.currentDistance + 3
    else if status = DutyStatus.sleeper_berth then
      s.currentDistance + 10
    else s.currentDistance
  { s with events := s.events ++ [e], currentTime := endTime, currentDistance := newDistance }

/-- `shiftDutyWindowHours += q` (the statement following several `addEvent`
calls in the source). -/
def addWindow (q : ℚ) (s : St) : St :=
  { s with shiftDutyWindowHours := s.shiftDutyWindowHours + q }

/-- The 30-min-break branch: emit an `off_duty` break of
`breakDurationMinutes`, count it toward the duty window, reset
`drivingSinceLastBreakHours`. -/
def applyBreak (cfg : HosProfileConfig) (dist : ℚ × ℚ → ℚ × ℚ → ℚ)
    (polyline : List (ℚ × ℚ)) (averageSpeed : ℚ) (s : St) : St :=
  let breakDur := cfg.breakRules.breakDurationMinutes / 60
  let s1 := addEvent dist polyline averageSpeed .off_duty breakDur "Rest Area"
    (toString cfg.breakRules.breakDurationMinutes ++ "-min Break") s
  { s1 with
    shiftDutyWindowHours := s1.shiftDutyWindowHours + breakDur
    drivingSinceLastBreakHours := 0 }

/-- The fueling branch of the leg-2 loop: a 0.5 h `on_duty_not_driving`
stop, counted toward the duty window, resetting `milesSinceFuel`. -/
def applyFuel (dist : ℚ × ℚ → ℚ × ℚ → ℚ) (polyline : List (ℚ × ℚ))
    (averageSpeed : ℚ) (s : St) : St :=
  let s1 := addEvent dist polyline averageSpeed .on_duty_not_driving 0.5
    "Fuel Station" "Fueling Stop" s
  { s1 with shiftDutyWindowHours := s1.shiftDutyWindowHours + 0.5, milesSinceFuel := 0 }

/-- The rest branches of the leg-2 loop: a `sleeper_berth` event of
`minOffDutyBeforeShiftHours`, then reset of `shiftDrivingHours`,
`shiftDutyWindowHours` and `drivingSinceLastBreakHours` (note:
`milesSinceFuel` is not touched). -/
def applySleeper (cfg : HosProfileConfig) (dist : ℚ × ℚ → ℚ × ℚ → ℚ)
    (polyline : List (ℚ × ℚ)) (averageSpeed : ℚ) (location remarks : String) (s : St) : St :=
  let s1 := addEvent dist polyline averageSpeed .sleeper_berth
    cfg.shiftRules.minOffDutyBeforeShiftHours location remarks s
  { s1 with
    shiftDrivingHours := 0
    shiftDutyWindowHours := 0
    drivingSinceLastBreakHours := 0 }

/-- A driving chunk: emit the `driving` event and advance all four
accumulators. -/
def applyDriving (dist : ℚ × ℚ → ℚ × ℚ → ℚ) (polyline : List (ℚ × ℚ))
    (averageSpeed : ℚ) (chunk : ℚ) (location remarks : String) (s : St) : St :=
  let s1 := addEvent dist polyline averageSpeed .driving chunk location remarks s
  { s1 with
    shiftDrivingHours := s1.shiftDrivingHours + chunk
    shiftDutyWindowHours := s1.shiftDutyWindowHours + chunk
    drivingSinceLastBreakHours := s1.drivingSinceLastBreakHours + chunk
    milesSinceFuel := s1.milesSinceFuel + chunk * averageSpeed }

/-- `maxDrivingThisSegment`: the minimum of the remaining leg time and the
three constraint headrooms. -/
def drivableChunk (cfg : HosProfileConfig) (remaining : ℚ) (s : St) : ℚ :=
  min remaining
    (min (cfg.shiftRules.maxDrivingHours - s.shiftDrivingHours)
      (min (cfg.shiftRules.maxDutyWindowHours - s.shiftDutyWindowHours)
        (cfg.breakRules.requiredAfterDrivingHours - s.drivingSinceLastBreakHours)))

/-- The leg-1 (origin to pickup) `while` loop, with an explicit iteration
budget.  Break check first; a non-positive chunk exits the loop (with no
rest inserted); otherwise drive the chunk. -/
def leg1Loop (cfg : HosProfileConfig) (dist : ℚ × ℚ → ℚ × ℚ → ℚ)
    (polyline : List (ℚ × ℚ)) (averageSpeed : ℚ) :
    Nat → ℚ → St → Option St
  | 0, remaining, s => if 0 < remaining then none else some s
  | fuel + 1, remaining, s =>
    if 0 < remaining then
      if cfg.breakRules.requiredAfterDrivingHours ≤ s.drivingSinceLastBreakHours then
        leg1Loop cfg dist polyline averageSpeed fuel remaining
          (applyBreak cfg dist polyline averageSpeed s)
      else
        let chunk := drivableChunk cfg remaining s
        if chunk ≤ 0 then some s
        else
          leg1Loop cfg dist polyline averageSpeed fuel (remaining - chunk)
            (applyDriving dist polyline averageSpeed chunk
              "En Route to Pickup" "Driving to Pickup Location" s)
    else some s

/-- The leg-2 (pickup to dropoff) `while` loop, with an explicit iteration
budget.  Order per the source: fuel check (no `continue`), then the
driving/duty-window limit check with a full sleeper rest, then the break
check, then the chunk with an emergency rest if it is non-positive. -/
def leg2Loop (cfg : HosProfileConfig) (dist : ℚ × ℚ → ℚ × ℚ → ℚ)
    (polyline : List (ℚ × ℚ)) (averageSpeed : ℚ) :
    Nat → ℚ → St → Option St
  | 0, remaining, s => if 0 < remaining then none else some s
  | fuel + 1, remaining, s0 =>
    if 0 < remaining then
      let s := if 1000 ≤ s0.milesSinceFuel then applyFuel dist polyline averageSpeed s0 else s0
      if cfg.shiftRules.maxDrivingHours ≤ s.shiftDrivingHours ∨
          cfg.shiftRules.maxDutyWindowHours ≤ s.shiftDutyWindowHours then
        leg2Loop cfg dist polyline averageSpeed fuel remaining
          (applySleeper cfg dist polyline averageSpeed "Truck Stop"
            (toString cfg.shiftRules.minOffDutyBeforeShiftHours ++ "h Daily Rest") s)
      else if cfg.breakRules.requiredAfterDrivingHours ≤ s.drivingSinceLastBreakHours then
        leg2Loop cfg dist polyline averageSpeed fuel remaining
          (applyBreak cfg dist polyline averageSpeed s)
      else
        let chunk := drivableChunk cfg remaining s
        if chunk ≤ 0 then
          leg2Loop cfg dist polyline averageSpeed fuel remaining
            (applySleeper cfg dist polyline averageSpeed "Rest Area" "Duty Window Rest" s)
        else
          leg2Loop cfg dist polyline averageSpeed fuel (remaining - chunk)
            (applyDriving dist polyline averageSpeed chunk
              "En Route to Dropoff" "Driving to Delivery Location" s)
    else some s0

/-- The proportional split of `durationHours` over the two legs, from the
pairwise waypoint distances (`originToPickupHours`, `pickupToDropoffHours`
in the source). -/
def legSplit (dist : ℚ × ℚ → ℚ × ℚ → ℚ) (route : RouteResult) : ℚ × ℚ :=
  let originToPickupDist := dist (route.points.origin.lat, route.points.origin.lng)
    (route.points.pickup.lat, route.points.pickup.lng)
  let pickupToDropoffDist := dist (route.points.pickup.lat, route.points.pickup.lng)
    (route.points.dropoff.lat, route.points.dropoff.lng)
  let totalDistance := originToPickupDist + pickupToDropoffDist
  (if 0 < totalDistance then originToPickupDist / totalDistance * route.durationHours else 0,
   if 0 < totalDistance then pickupToDropoffDist / totalDistance * route.durationHours
   else route.durationHours)

/-- The run prefix before leg 1: initial state at local midnight, the
continuous off-duty pad up to `startTime` (skipped when the start is
exactly midnight), and the pre-trip inspection with its duty-window
increment. -/
def preamble (dist : ℚ × ℚ → ℚ × ℚ → ℚ) (route : RouteResult) (startTime : Int)
    (averageSpeed : ℚ) : St :=
  let startOfDayOne := dayStart startTime
  let s0 : St := ⟨[], startOfDayOne, 0, 0, 0, 0, 0⟩
  let s1 :=
    if startOfDayOne < startTime then
      addEvent dist route.polyline averageSpeed .off_duty
        (((startTime - startOfDayOne : Int) : ℚ) / (1000 * 60 * 60))
        "Home Terminal" "Off Duty - Continuous Rest Period" s0
    else s0
  addWindow 0.25 (addEvent dist route.polyline averageSpeed .on_duty_not_driving 0.25
    route.points.origin.address "Pre-trip Inspection" s1)

/-- The run suffix after leg 2: dropoff, post-trip inspection (the source
adds no duty-window increment after the post-trip), and the final off-duty
pad up to 23:59:59.999 of the day the schedule finishes on (skipped when
`currentTime` already is that instant). -/
def postlude (dist : ℚ × ℚ → ℚ × ℚ → ℚ) (route : RouteResult) (averageSpeed : ℚ)
    (s5 : St) : St :=
  let s6 := addWindow 1 (addEvent dist route.polyline averageSpeed .on_duty_not_driving 1
    route.points.dropoff.address "Dropoff (Unloading)" s5)
  let s7 := addEvent dist route.polyline averageSpeed .on_duty_not_driving 0.25
    route.points.dropoff.address "Post-trip Inspection" s6
  let endOfLastDay := dayStart s7.currentTime + 86399999
  if s7.currentTime < endOfLastDay then
    addEvent dist route.polyline averageSpeed .off_duty
      (((endOfLastDay - s7.currentTime : Int) : ℚ) / (1000 * 60 * 60))
      "Home Terminal" "Off Duty - End of Day Rest Period" s7
  else s7

/-- `generateDutyEvents(route, startTime, config, averageSpeed)`, with an
explicit iteration budget shared by the two driving loops.  The source's
`remainingDrivingHours` decrements inside leg 1 are dead (the variable is
reassigned to `pickupToDropoffHours` before leg 2) and are not modelled. -/
def generateDutyEvents (dist : ℚ × ℚ → ℚ × ℚ → ℚ) (route : RouteResult)
    (startTime : Int) (config : HosProfileConfig) (averageSpeed : ℚ)
    (fuel : Nat) : Option (List DutyEvent) :=
  let s2 := preamble dist route startTime averageSpeed
  let legs := legSplit dist route
  match (if 0 < legs.1 then
      leg1Loop config dist route.polyline averageSpeed fuel legs.1 s2
    else some s2) with
  | none => none
  | some s3 =>
    let s4 := addWindow 1 (addEvent dist route.polyline averageSpeed .on_duty_not_driving 1
      route.points.pickup.address "Pickup (Loading)" s3)
    match leg2Loop config dist route.polyline averageSpeed fuel legs.2 s4 with
    | none => none
    | some s5 => some (postlude dist route averageSpeed s5).events

/-- A fresh `DailyLog` for day `d` as created by `splitEventsIntoDays`. -/
def emptyLog (d : Int) : DailyLog := ⟨d, [], ⟨0, 0, 0, 0⟩, 0⟩

/-- Update the log at key `d` in the insertion-ordered association list,
creating it first (as the source does) when absent. -/
def assocBump (d : Int) (f : DailyLog → DailyLog) :
    List (Int × DailyLog) → List (Int × DailyLog)
  | [] => [(d, f (emptyLog d))]
  | (k, v) :: rest => if k = d then (k, f v) :: rest else (k, v) :: assocBump d f rest

/-- One iteration of the inner loop of `splitEventsIntoDays`: push the
clipped sub-event `[segStart, segEnd]` of `event` into the log of
`segStart`'s day, accumulate its duration in the per-status totals, and for
driving also accumulate miles. -/
def addSegment (averageSpeed : ℚ) (event : DutyEvent) (segStart segEnd : Int)
    (logs : List (Int × DailyLog)) : List (Int × DailyLog) :=
  let durationHours : ℚ := ((segEnd - segStart : Int) : ℚ) / (1000 * 60 * 60)
  assocBump (dayIdx segStart) (fun log =>
    let log1 : DailyLog :=
      { log with
        events := log.events ++ [{ event with start := segStart, «end» := segEnd }]
        totals := bumpTotals event.status durationHours log.totals }
    if event.status = DutyStatus.driving then
      { log1 with totalMiles := log1.totalMiles + durationHours * averageSpeed }
    else log1) logs

/-- The inner `while (current < end)` loop of `splitEventsIntoDays`,
walking one event forward in local-midnight-aligned steps.  Each step
either finishes the event or advances `current` to the next local midnight,
so one iteration per calendar day touched suffices (the lemmas below prove
the budget adequate); the budget makes the recursion structural. -/
def splitWalkAux (averageSpeed : ℚ) (event : DutyEvent) :
    Nat → Int → List (Int × DailyLog) → List (Int × DailyLog)
  | 0, _, logs => logs
  | n + 1, current, logs =>
    if current < event.«end» then
      let segEnd := min event.«end» (dayStart current + 86400000)
      splitWalkAux averageSpeed event n segEnd (addSegment averageSpeed event current segEnd logs)
    else logs

/-- Process one event of `splitEventsIntoDays`. -/
def splitWalk (averageSpeed : ℚ) (event : DutyEvent)
    (logs : List (Int × DailyLog)) : List (Int × DailyLog) :=
  splitWalkAux averageSpeed event
    ((dayIdx event.«end» - dayIdx event.start).toNat + 1) event.start logs

/-- Insertion into a key-sorted association list (ascending date, as the
source's final `sort` by `localeCompare` on ISO date strings). -/
def insertLog (x : Int × DailyLog) : List (Int × DailyLog) → List (Int × DailyLog)
  | [] => [x]
  | y :: rest => if x.1 ≤ y.1 then x :: y :: rest else y :: insertLog x rest

/-- Sort the association list of logs by date ascending. -/
def sortLogs : List (Int × DailyLog) → List (Int × DailyLog)
  | [] => []
  | x :: rest => insertLog x (sortLogs rest)

/-- `splitEventsIntoDays(events, averageSpeed)`. -/
def splitEventsIntoDays (events : List DutyEvent) (averageSpeed : ℚ) : List DailyLog :=
  (sortLogs (events.foldl (fun logs event => splitWalk averageSpeed event logs) [])).map
    Prod.snd

/-- The FMCSA property-carrying profile constant (the default profile),
restricted to the fields the core reads. -/
def HOS_PROFILE_CONFIG_PROPERTY_CARRYING_US_FMCSA : HosProfileConfig :=
  { profileId := "us_fmcsa_property_carrying_interstate"
    label := "US FMCSA – Property-carrying (Interstate)"
    dutyStatuses :=
      { off_duty := ⟨false, false, false, true⟩
        sleeper_berth := ⟨false, false, false, true⟩
        driving := ⟨true, true, true, false⟩
        on_duty_not_driving := ⟨false, true, true, false⟩ }
    shiftRules :=
      { minOffDutyBeforeShiftHours := 10
        maxDrivingHours := 11
        maxDutyWindowHours := 14
        allowDrivingAfterDutyWindow := false }
    breakRules :=
      { requiredAfterDrivingHours := 8
        breakDurationMinutes := 30
        qualifyingStatuses := [.off_duty, .sleeper_berth, .on_duty_not_driving]
        mustBeContinuous := true } }

/-! ## Day arithmetic -/

theorem dayStart_le (t : Int) : dayStart t ≤ t := by
  simp only [dayStart]; omega

theorem lt_dayStart_add (t : Int) : t < dayStart t + 86400000 := by
  simp only [dayStart]; omega

theorem dayStart_emod (t : Int) : dayStart t % 86400000 = 0 := by
  simp only [dayStart]; omega

theorem dayStart_mul_dayIdx (t : Int) : dayStart t = 86400000 * dayIdx t := by
  simp only [dayStart, dayIdx]; omega

theorem dayStart_eq_of_mem (a b : Int) (h1 : dayStart a ≤ b)
    (h2 : b < dayStart a + 86400000) : dayStart b = dayStart a := by
  simp only [dayStart] at *; omega

theorem dayIdx_eq_of_mem (a b : Int) (h1 : dayStart a ≤ b)
    (h2 : b < dayStart a + 86400000) : dayIdx b = dayIdx a := by
  simp only [dayStart, dayIdx] at *; omega

/-! ## Event chains

`EventsChain t0 es t1` says that `es` is a gapless, overlap-free sequence
of events leading from time `t0` to time `t1`: the first event starts at
`t0`, each event starts where the previous one ends, and the last event
ends at `t1`. -/

def EventsChain : Int → List DutyEvent → Int → Prop
  | t0, [], t1 => t0 = t1
  | t0, e :: es, t1 => e.start = t0 ∧ EventsChain e.«end» es t1

theorem eventsChain_snoc {t0 t1 : Int} {es : List DutyEvent} (e : DutyEvent)
    (h : EventsChain t0 es t1) (he : e.start = t1) :
    EventsChain t0 (es ++ [e]) e.«end» := by
  induction es generalizing t0 with
  | nil => exact ⟨he.trans ((show t0 = t1 from h).symm), rfl⟩
  | cons a as ih => exact ⟨h.1, ih h.2⟩

theorem eventsChain_chain' {t0 t1 : Int} {es : List DutyEvent}
    (h : EventsChain t0 es t1) :
    List.Chain' (fun a b => a.«end» = b.start) es := by
  induction es generalizing t0 with
  | nil => simp
  | cons a as ih =>
    cases as with
    | nil => simp
    | cons b bs =>
      exact List.chain'_cons.mpr ⟨(h.2.1).symm, @ih a.«end» h.2⟩

theorem eventsChain_getLast {t0 t1 : Int} {es : List DutyEvent} {e : DutyEvent}
    (h : EventsChain t0 es t1) (hl : es.getLast? = some e) : e.«end» = t1 := by
  induction es generalizing t0 with
  | nil => simp at hl
  | cons a as ih =>
    cases as with
    | nil =>
      simp only [List.getLast?_singleton, Option.some.injEq] at hl
      subst hl; exact h.2
    | cons b bs => exact ih h.2 (by simpa using hl)

theorem eventsChain_head {t0 t1 : Int} {es : List DutyEvent} {e : DutyEvent}
    (h : EventsChain t0 es t1) (hh : es.head? = some e) : e.start = t0 := by
  cases es with
  | nil => simp at hh
  | cons a as => simp only [List.head?_cons, Option.some.injEq] at hh; subst hh; exact h.1

theorem eventsChain_le {t0 t1 : Int} {es : List DutyEvent}
    (h : EventsChain t0 es t1) (hw : ∀ e ∈ es, e.start ≤ e.«end») : t0 ≤ t1 := by
  induction es generalizing t0 with
  | nil => exact le_of_eq h
  | cons a as ih =>
    have h1 : a.start = t0 := h.1
    have h2 := ih h.2 (fun e he => hw e (List.mem_cons_of_mem _ he))
    have := hw a (List.mem_cons_self _ _)
    omega

/-! ## The scheduler state invariant -/

/-- Invariant of a scheduler state: the emitted events chain gaplessly from
`t0` to `currentTime`, and no event ends before it starts. -/
def SchedInv (t0 : Int) (s : St) : Prop :=
  EventsChain t0 s.events s.currentTime ∧ ∀ e ∈ s.events, e.start ≤ e.«end»

theorem addEvent_inv {dist polyline averageSpeed status durationHours loc rem}
    {t0 : Int} {s : St} (hd : 0 ≤ durationHours) (h : SchedInv t0 s) :
    SchedInv t0 (addEvent dist polyline averageSpeed status durationHours loc rem s) := by
  obtain ⟨hc, hw⟩ := h
  have hfl : (0 : Int) ≤ ⌊durationHours * (60 * 60 * 1000 : ℚ)⌋ :=
    Int.le_floor.mpr (by exact_mod_cast mul_nonneg hd (by norm_num))
  constructor
  · exact eventsChain_snoc _ hc rfl
  · intro e he
    simp only [addEvent, List.mem_append, List.mem_singleton] at he
    rcases he with he | rfl
    · exact hw e he
    · simp only; omega

theorem schedInv_of_eq {t0 : Int} {s s' : St} (h : SchedInv t0 s)
    (hev : s'.events = s.events) (hct : s'.currentTime = s.currentTime) :
    SchedInv t0 s' := by
  obtain ⟨hc, hw⟩ := h
  exact ⟨by rw [hev, hct]; exact hc, by rw [hev]; exact hw⟩

theorem applyBreak_inv {cfg : HosProfileConfig} {dist : ℚ × ℚ → ℚ × ℚ → ℚ}
    {polyline : List (ℚ × ℚ)} {averageSpeed : ℚ} {t0 : Int} {s : St}
    (hb : 0 ≤ cfg.breakRules.breakDurationMinutes) (h : SchedInv t0 s) :
    SchedInv t0 (applyBreak cfg dist polyline averageSpeed s) := by
  have h1 : SchedInv t0 (addEvent dist polyline averageSpeed .off_duty
      (cfg.breakRules.breakDurationMinutes / 60) "Rest Area"
      (toString cfg.breakRules.breakDurationMinutes ++ "-min Break") s) :=
    addEvent_inv (by positivity) h
  exact schedInv_of_eq h1 rfl rfl

theorem applyFuel_inv {dist : ℚ × ℚ → ℚ × ℚ → ℚ} {polyline : List (ℚ × ℚ)}
    {averageSpeed : ℚ} {t0 : Int} {s : St} (h : SchedInv t0 s) :
    SchedInv t0 (applyFuel dist polyline averageSpeed s) := by
  have h1 : SchedInv t0 (addEvent dist polyline averageSpeed .on_duty_not_driving 0.5
      "Fuel Station" "Fueling Stop" s) := addEvent_inv (by norm_num) h
  exact schedInv_of_eq h1 rfl rfl

theorem applySleeper_inv {cfg : HosProfileConfig} {dist : ℚ × ℚ → ℚ × ℚ → ℚ}
    {polyline : List (ℚ × ℚ)} {averageSpeed : ℚ} {loc rem : String} {t0 : Int} {s : St}
    (hm : 0 ≤ cfg.shiftRules.minOffDutyBeforeShiftHours) (h : SchedInv t0 s) :
    SchedInv t0 (applySleeper cfg dist polyline averageSpeed loc rem s) := by
  have h1 : SchedInv t0 (addEvent dist polyline averageSpeed .sleeper_berth
      cfg.shiftRules.minOffDutyBeforeShiftHours loc rem s) := addEvent_inv hm h
  exact schedInv_of_eq h1 rfl rfl

theorem applyDriving_inv {dist : ℚ × ℚ → ℚ × ℚ → ℚ} {polyline : List (ℚ × ℚ)}
    {averageSpeed chunk : ℚ} {loc rem : String} {t0 : Int} {s : St}
    (hc : 0 ≤ chunk) (h : SchedInv t0 s) :
    SchedInv t0 (applyDriving dist polyline averageSpeed chunk loc rem s) := by
  have h1 : SchedInv t0 (addEvent dist polyline averageSpeed .driving chunk loc rem s) :=
    addEvent_inv hc h
  exact schedInv_of_eq h1 rfl rfl

theorem addWindow_inv {q : ℚ} {t0 : Int} {s : St} (h : SchedInv t0 s) :
    SchedInv t0 (addWindow q s) :=
  schedInv_of_eq h rfl rfl

theorem leg1Loop_inv {cfg : HosProfileConfig} {dist : ℚ × ℚ → ℚ × ℚ → ℚ}
    {polyline : List (ℚ × ℚ)} {averageSpeed : ℚ} {t0 : Int}
    (hb : 0 ≤ cfg.breakRules.breakDurationMinutes) :
    ∀ fuel remaining (s s' : St),
      leg1Loop cfg dist polyline averageSpeed fuel remaining s = some s' →
      SchedInv t0 s → SchedInv t0 s' := by
  intro fuel
  induction fuel with
  | zero =>
    intro r s s' h hs
    simp only [leg1Loop] at h
    split at h
    · exact absurd h (by simp)
    · exact (Option.some_inj.mp h) ▸ hs
  | succ n ih =>
    intro r s s' h hs
    simp only [leg1Loop] at h
    split at h
    · split at h
      · exact ih _ _ _ h (applyBreak_inv hb hs)
      · split at h
        · exact (Option.some_inj.mp h) ▸ hs
        · rename_i hc
          exact ih _ _ _ h (applyDriving_inv (not_le.mp hc).le hs)
    · exact (Option.some_inj.mp h) ▸ hs

theorem leg2Loop_inv {cfg : HosProfileConfig} {dist : ℚ × ℚ → ℚ × ℚ → ℚ}
    {polyline : List (ℚ × ℚ)} {averageSpeed : ℚ} {t0 : Int}
    (hb : 0 ≤ cfg.breakRules.breakDurationMinutes)
    (hm : 0 ≤ cfg.shiftRules.minOffDutyBeforeShiftHours) :
    ∀ fuel remaining (s s' : St),
      leg2Loop cfg dist polyline averageSpeed fuel remaining s = some s' →
      SchedInv t0 s → SchedInv t0 s' := by
  intro fuel
  induction fuel with
  | zero =>
    intro r s s' h hs
    simp only [leg2Loop] at h
    split at h
    · exact absurd h (by simp)
    · exact (Option.some_inj.mp h) ▸ hs
  | succ n ih =>
    intro r s s' h hs
    have key : ∀ sf : St, SchedInv t0 sf →
        (if cfg.shiftRules.maxDrivingHours ≤ sf.shiftDrivingHours ∨
            cfg.shiftRules.maxDutyWindowHours ≤ sf.shiftDutyWindowHours then
          leg2Loop cfg dist polyline averageSpeed n r
            (applySleeper cfg dist polyline averageSpeed "Truck Stop"
              (toString cfg.shiftRules.minOffDutyBeforeShiftHours ++ "h Daily Rest") sf)
        else if cfg.breakRules.requiredAfterDrivingHours ≤ sf.drivingSinceLastBreakHours then
          leg2Loop cfg dist polyline averageSpeed n r
            (applyBreak cfg dist polyline averageSpeed sf)
        else if drivableChunk cfg r sf ≤ 0 then
          leg2Loop cfg dist polyline averageSpeed n r
            (applySleeper cfg dist polyline averageSpeed "Rest Area" "Duty Window Rest" sf)
        else
          leg2Loop cfg dist polyline averageSpeed n (r - drivableChunk cfg r sf)
            (applyDriving dist polyline averageSpeed (drivableChunk cfg r sf)
              "En Route to Dropoff" "Driving to Delivery Location" sf)) = some s' →
        SchedInv t0 s' := by
      intro sf hsf hh
      split at hh
      · exact ih _ _ _ hh (applySleeper_inv hm hsf)
      · split at hh
        · exact ih _ _ _ hh (applyBreak_inv hb hsf)
        · split at hh
          · exact ih _ _ _ hh (applySleeper_inv hm hsf)
          · rename_i hc
            exact ih _ _ _ hh (applyDriving_inv (not_le.mp hc).le hsf)
    simp only [leg2Loop] at h
    split at h
    · split at h
      · exact key _ (applyFuel_inv hs) h
      · exact key _ hs h
    · exact (Option.some_inj.mp h) ▸ hs

theorem addEvent_currentTime {dist polyline averageSpeed status durationHours loc rem}
    {s : St} :
    (addEvent dist polyline averageSpeed status durationHours loc rem s).currentTime =
      s.currentTime + ⌊durationHours * (60 * 60 * 1000 : ℚ)⌋ := rfl

theorem pad_cast_val (t E : Int) :
    ((E - t : Int) : ℚ) / (1000 * 60 * 60) * (60 * 60 * 1000 : ℚ) = ((E - t : Int) : ℚ) := by
  rw [show ((1000 * 60 * 60 : ℚ)) = ((60 * 60 * 1000 : ℚ)) by norm_num]
  exact div_mul_cancel₀ _ (by norm_num)

theorem preamble_inv {dist : ℚ × ℚ → ℚ × ℚ → ℚ} {route : RouteResult}
    {startTime : Int} {averageSpeed : ℚ} :
    SchedInv (dayStart startTime) (preamble dist route startTime averageSpeed) := by
  have h0 : SchedInv (dayStart startTime)
      ⟨[], dayStart startTime, 0, 0, 0, 0, 0⟩ :=
    ⟨rfl, by intro e he; simp at he⟩
  simp only [preamble]
  refine addWindow_inv (addEvent_inv (by norm_num) ?_)
  split
  · rename_i hlt
    refine addEvent_inv ?_ h0
    have hnn : (0 : ℚ) ≤ ((startTime - dayStart startTime : Int) : ℚ) := by
      have := dayStart_le startTime
      exact_mod_cast Int.sub_nonneg.mpr this
    positivity
  · exact h0

theorem postlude_inv {dist : ℚ × ℚ → ℚ × ℚ → ℚ} {route : RouteResult}
    {averageSpeed : ℚ} {t0 : Int} {s5 : St} (h : SchedInv t0 s5) :
    SchedInv t0 (postlude dist route averageSpeed s5) := by
  simp only [postlude]
  have h7 : SchedInv t0 (addEvent dist route.polyline averageSpeed .on_duty_not_driving 0.25
      route.points.dropoff.address "Post-trip Inspection"
      (addWindow 1 (addEvent dist route.polyline averageSpeed .on_duty_not_driving 1
        route.points.dropoff.address "Dropoff (Unloading)" s5))) :=
    addEvent_inv (by norm_num) (addWindow_inv (addEvent_inv (by norm_num) h))
  split
  · rename_i hlt
    refine addEvent_inv ?_ h7
    have hnn : (0 : Int) ≤ dayStart (addEvent dist route.polyline averageSpeed
        .on_duty_not_driving 0.25 route.points.dropoff.address "Post-trip Inspection"
        (addWindow 1 (addEvent dist route.polyline averageSpeed .on_duty_not_driving 1
          route.points.dropoff.address "Dropoff (Unloading)" s5))).currentTime + 86399999
        - (addEvent dist route.polyline averageSpeed .on_duty_not_driving 0.25
          route.points.dropoff.address "Post-trip Inspection"
          (addWindow 1 (addEvent dist route.polyline averageSpeed .on_duty_not_driving 1
            route.points.dropoff.address "Dropoff (Unloading)" s5))).currentTime := by
      omega
    have hnn2 : (0 : ℚ) ≤ ((dayStart (addEvent dist route.polyline averageSpeed
        .on_duty_not_driving 0.25 route.points.dropoff.address "Post-trip Inspection"
        (addWindow 1 (addEvent dist route.polyline averageSpeed .on_duty_not_driving 1
          route.points.dropoff.address "Dropoff (Unloading)" s5))).currentTime + 86399999
        - (addEvent dist route.polyline averageSpeed .on_duty_not_driving 0.25
          route.points.dropoff.address "Post-trip Inspection"
          (addWindow 1 (addEvent dist route.polyline averageSpeed .on_duty_not_driving 1
            route.points.dropoff.address "Dropoff (Unloading)" s5))).currentTime : Int) : ℚ) := by
      exact_mod_cast hnn
    positivity
  · exact h7

theorem padToDayEnd_time (dist : ℚ × ℚ → ℚ × ℚ → ℚ) (polyline : List (ℚ × ℚ))
    (averageSpeed : ℚ) (s : St) :
    ((if s.currentTime < dayStart s.currentTime + 86399999 then
        addEvent dist polyline averageSpeed .off_duty
          (((dayStart s.currentTime + 86399999 - s.currentTime : Int) : ℚ) / (1000 * 60 * 60))
          "Home Terminal" "Off Duty - End of Day Rest Period" s
      else s).currentTime) % 86400000 = 86399999 := by
  split
  · rename_i hlt
    rw [addEvent_currentTime, pad_cast_val, Int.floor_intCast]
    simp only [dayStart]
    omega
  · rename_i hge
    have := lt_dayStart_add s.currentTime
    simp only [dayStart] at *
    omega

theorem postlude_time (dist : ℚ × ℚ → ℚ × ℚ → ℚ) (route : RouteResult)
    (averageSpeed : ℚ) (s5 : St) :
    (postlude dist route averageSpeed s5).currentTime % 86400000 = 86399999 := by
  simp only [postlude]
  exact padToDayEnd_time dist route.polyline averageSpeed _

theorem generateDutyEvents_chain {dist : ℚ × ℚ → ℚ × ℚ → ℚ} {route : RouteResult}
    {startTime : Int} {config : HosProfileConfig} {averageSpeed : ℚ} {fuel : Nat}
    {evs : List DutyEvent}
    (hb : 0 ≤ config.breakRules.breakDurationMinutes)
    (hm : 0 ≤ config.shiftRules.minOffDutyBeforeShiftHours)
    (h : generateDutyEvents dist route startTime config averageSpeed fuel = some evs) :
    ∃ T, EventsChain (dayStart startTime) evs T ∧ (∀ e ∈ evs, e.start ≤ e.«end») ∧
      T % 86400000 = 86399999 := by
  simp only [generateDutyEvents] at h
  split at h
  · exact absurd h (by simp)
  · rename_i s3 h1
    split at h
    · exact absurd h (by simp)
    · rename_i s5 h2
      have hevs : evs = (postlude dist route averageSpeed s5).events :=
        (Option.some_inj.mp h).symm
      have hs3 : SchedInv (dayStart startTime) s3 := by
        split at h1
        · exact leg1Loop_inv hb _ _ _ _ h1 preamble_inv
        · exact (Option.some_inj.mp h1) ▸ preamble_inv
      have hs4 : SchedInv (dayStart startTime)
          (addWindow 1 (addEvent dist route.polyline averageSpeed .on_duty_not_driving 1
            route.points.pickup.address "Pickup (Loading)" s3)) :=
        addWindow_inv (addEvent_inv (by norm_num) hs3)
      have hs5 : SchedInv (dayStart startTime) s5 := leg2Loop_inv hb hm _ _ _ _ h2 hs4
      have h6 : SchedInv (dayStart startTime) (postlude dist route averageSpeed s5) :=
        postlude_inv hs5
      exact ⟨(postlude dist route averageSpeed s5).currentTime,
        by rw [hevs]; exact h6.1, by rw [hevs]; exact h6.2,
        postlude_time dist route averageSpeed s5⟩

/-! ## Day-splitting correctness

`splitEventsIntoDays` clips every event against local midnights and
accumulates its duration into per-day, per-status totals.  The central
quantity is the length in milliseconds of the intersection of a time range
with a calendar day. -/

/-- Hours represented by `n` milliseconds. -/
def hoursOfMs (n : Int) : ℚ := (n : ℚ) / (1000 * 60 * 60)

/-- Length in milliseconds of the intersection of the range `[a, b]` with
calendar day `d` (the day spanning `[d·86400000, (d+1)·86400000]`). -/
def overlap (a b d : Int) : Int :=
  max 0 (min b ((d + 1) * 86400000) - max a (d * 86400000))

/-- Lookup in the insertion-ordered association list of day logs. -/
def lookupLog : List (Int × DailyLog) → Int → Option DailyLog
  | [], _ => none
  | (k, v) :: rest, d => if k = d then some v else lookupLog rest d

/-- Total hours recorded for day `d`, `0` when the day has no log yet. -/
def daySum (logs : List (Int × DailyLog)) (d : Int) : ℚ :=
  ((lookupLog logs d).getD (emptyLog d)).totals.sum

theorem overlap_zero_of_le {a b : Int} (d : Int) (h : b ≤ a) :
    overlap a b d = 0 := by
  simp only [overlap]; omega

theorem overlap_split {a c b : Int} (d : Int) (h1 : a ≤ c) (h2 : c ≤ b) :
    overlap a b d = overlap a c d + overlap c b d := by
  simp only [overlap]; omega

theorem overlap_within_day {a b : Int} (d : Int) (h1 : a ≤ b)
    (h2 : b ≤ dayStart a + 86400000) :
    overlap a b d = if d = dayIdx a then b - a else 0 := by
  simp only [dayStart] at h2
  simp only [overlap, dayIdx]
  split <;> omega

theorem overlap_pos_mono {a a' b b' : Int} (d : Int) (h1 : a' ≤ a) (h2 : b ≤ b')
    (h : 0 < overlap a b d) : 0 < overlap a' b' d := by
  simp only [overlap] at h ⊢; omega

theorem bumpTotals_sum (status : DutyStatus) (q : ℚ) (t : Totals) :
    (bumpTotals status q t).sum = t.sum + q := by
  cases status <;> simp only [bumpTotals, Totals.sum] <;> ring

theorem lookupLog_assocBump_self (d : Int) (f : DailyLog → DailyLog)
    (logs : List (Int × DailyLog)) :
    lookupLog (assocBump d f logs) d =
      some (f ((lookupLog logs d).getD (emptyLog d))) := by
  induction logs with
  | nil => simp [assocBump, lookupLog]
  | cons p rest ih =>
    obtain ⟨k, v⟩ := p
    by_cases hk : k = d
    · subst hk; simp [assocBump, lookupLog]
    · simp only [assocBump, if_neg hk, lookupLog]
      exact ih

theorem lookupLog_assocBump_other {d' d : Int} (hne : d' ≠ d)
    (f : DailyLog → DailyLog) (logs : List (Int × DailyLog)) :
    lookupLog (assocBump d f logs) d' = lookupLog logs d' := by
  induction logs with
  | nil => simp [assocBump, lookupLog, Ne.symm hne]
  | cons p rest ih =>
    obtain ⟨k, v⟩ := p
    by_cases hk : k = d
    · have hk' : ¬ k = d' := fun h => hne (by rw [← h, hk])
      simp only [assocBump, if_pos hk, lookupLog, if_neg hk']
    · simp only [assocBump, if_neg hk, lookupLog]
      rw [ih]

theorem assocBump_keys_cases (d : Int) (f : DailyLog → DailyLog)
    (logs : List (Int × DailyLog)) :
    (d ∉ logs.map Prod.fst ∧
      (assocBump d f logs).map Prod.fst = logs.map Prod.fst ++ [d]) ∨
    (assocBump d f logs).map Prod.fst = logs.map Prod.fst := by
  induction logs with
  | nil => exact Or.inl ⟨by simp, by simp [assocBump]⟩
  | cons p rest ih =>
    obtain ⟨k, v⟩ := p
    by_cases hk : k = d
    · exact Or.inr (by simp [assocBump, if_pos hk])
    · rcases ih with ⟨hmem, he⟩ | he
      · refine Or.inl ⟨?_, by simp [assocBump, if_neg hk, he]⟩
        simp only [List.map_cons, List.mem_cons]
        rintro (h1 | h1)
        · exact hk h1.symm
        · exact hmem h1
      · exact Or.inr (by simp [assocBump, if_neg hk, he])

theorem assocBump_keys_nodup (d : Int) (f : DailyLog → DailyLog)
    {logs : List (Int × DailyLog)} (h : (logs.map Prod.fst).Nodup) :
    ((assocBump d f logs).map Prod.fst).Nodup := by
  rcases assocBump_keys_cases d f logs with ⟨hmem, he⟩ | he
  · rw [he]
    refine List.Nodup.append h (List.nodup_singleton d) ?_
    intro x hx hxd
    exact hmem ((List.mem_singleton.mp hxd) ▸ hx)
  · rw [he]; exact h

theorem lookupLog_of_mem {logs : List (Int × DailyLog)} {d : Int} {log : DailyLog}
    (hnd : (logs.map Prod.fst).Nodup) (hm : (d, log) ∈ logs) :
    lookupLog logs d = some log := by
  induction logs with
  | nil => simp at hm
  | cons p rest ih =>
    obtain ⟨k, v⟩ := p
    simp only [List.map_cons, List.nodup_cons] at hnd
    rcases List.mem_cons.mp hm with h | h
    · rw [Prod.mk.injEq] at h
      obtain ⟨h1, h2⟩ := h
      simp only [lookupLog, if_pos h1.symm, h2]
    · by_cases hk : k = d
      · exact absurd (List.mem_map_of_mem Prod.fst h) (hk ▸ hnd.1)
      · simp only [lookupLog, if_neg hk]
        exact ih hnd.2 h

theorem mem_insertLog (x y : Int × DailyLog) (l : List (Int × DailyLog)) :
    y ∈ insertLog x l ↔ y = x ∨ y ∈ l := by
  induction l with
  | nil => simp [insertLog]
  | cons a rest ih =>
    simp only [insertLog]
    split
    · simp [List.mem_cons]
    · simp only [List.mem_cons, ih]
      tauto

theorem mem_sortLogs (y : Int × DailyLog) (l : List (Int × DailyLog)) :
    y ∈ sortLogs l ↔ y ∈ l := by
  induction l with
  | nil => simp [sortLogs]
  | cons a rest ih =>
    simp only [sortLogs, mem_insertLog, ih, List.mem_cons]

theorem daySum_addSegment (averageSpeed : ℚ) (event : DutyEvent)
    (segStart segEnd : Int) (logs : List (Int × DailyLog)) (d : Int) :
    daySum (addSegment averageSpeed event segStart segEnd logs) d =
      daySum logs d +
        (if d = dayIdx segStart then hoursOfMs (segEnd - segStart) else 0) := by
  by_cases hd : d = dayIdx segStart
  · rw [if_pos hd, hd]
    simp only [daySum, addSegment, lookupLog_assocBump_self, Option.getD_some]
    split
    · dsimp only
      rw [bumpTotals_sum]
      simp only [hoursOfMs]
    · dsimp only
      rw [bumpTotals_sum]
      simp only [hoursOfMs]
  · rw [if_neg hd, add_zero]
    simp only [daySum, addSegment]
    rw [lookupLog_assocBump_other hd]

theorem splitWalkAux_exit (averageSpeed : ℚ) (event : DutyEvent) (n : Nat)
    (current : Int) (logs : List (Int × DailyLog)) (h : ¬ current < event.«end») :
    splitWalkAux averageSpeed event n current logs = logs := by
  cases n with
  | zero => rfl
  | succ m => simp only [splitWalkAux, if_neg h]

theorem daySum_splitWalkAux (averageSpeed : ℚ) (event : DutyEvent) (n : Nat) :
    ∀ (current : Int) (logs : List (Int × DailyLog)),
      (current < event.«end» → (dayIdx event.«end» - dayIdx current).toNat < n) →
      ∀ d, daySum (splitWalkAux averageSpeed event n current logs) d =
        daySum logs d + hoursOfMs (overlap current event.«end» d) := by
  induction n with
  | zero =>
    intro current logs hf d
    by_cases hc : current < event.«end»
    · exact absurd (hf hc) (Nat.not_lt_zero _)
    · rw [splitWalkAux_exit averageSpeed event 0 current logs hc,
        overlap_zero_of_le d (not_lt.mp hc)]
      simp [hoursOfMs]
  | succ m ih =>
    intro current logs hf d
    by_cases hc : current < event.«end»
    · simp only [splitWalkAux, if_pos hc]
      have h1 : current ≤ min event.«end» (dayStart current + 86400000) :=
        le_min hc.le (lt_dayStart_add current).le
      have h2 : min event.«end» (dayStart current + 86400000) ≤ event.«end» :=
        min_le_left _ _
      have h3 : min event.«end» (dayStart current + 86400000) ≤
          dayStart current + 86400000 := min_le_right _ _
      have hfuel : min event.«end» (dayStart current + 86400000) < event.«end» →
          (dayIdx event.«end» -
            dayIdx (min event.«end» (dayStart current + 86400000))).toNat < m := by
        intro hlt
        have hfc := hf hc
        simp only [dayIdx, dayStart] at hfc hlt ⊢
        omega
      rw [ih _ _ hfuel d, daySum_addSegment,
        overlap_split d h1 h2, overlap_within_day d h1 h3]
      by_cases hdd : d = dayIdx current
      · rw [if_pos hdd, if_pos hdd]
        simp only [hoursOfMs]
        push_cast
        ring
      · rw [if_neg hdd, if_neg hdd]
        simp only [hoursOfMs]
        push_cast
        ring
    · rw [splitWalkAux_exit averageSpeed event (m + 1) current logs hc,
        overlap_zero_of_le d (not_lt.mp hc)]
      simp [hoursOfMs]

theorem isSome_splitWalkAux (averageSpeed : ℚ) (event : DutyEvent) (n : Nat) :
    ∀ (current : Int) (logs : List (Int × DailyLog)) (d : Int),
      (lookupLog (splitWalkAux averageSpeed event n current logs) d).isSome = true →
      (lookupLog logs d).isSome = true ∨ 0 < overlap current event.«end» d := by
  induction n with
  | zero => intro current logs d h; exact Or.inl h
  | succ m ih =>
    intro current logs d h
    by_cases hc : current < event.«end»
    · simp only [splitWalkAux, if_pos hc] at h
      rcases ih _ _ d h with h1 | h1
      · by_cases hdd : d = dayIdx current
        · refine Or.inr ?_
          subst hdd
          simp only [overlap, dayIdx]
          omega
        · simp only [addSegment] at h1
          rw [lookupLog_assocBump_other hdd] at h1
          exact Or.inl h1
      · refine Or.inr (overlap_pos_mono d ?_ le_rfl h1)
        exact le_min hc.le (lt_dayStart_add current).le
    · rw [splitWalkAux_exit averageSpeed event (m + 1) current logs hc] at h
      exact Or.inl h

theorem splitWalkAux_keys_nodup (averageSpeed : ℚ) (event : DutyEvent) (n : Nat) :
    ∀ (current : Int) (logs : List (Int × DailyLog)),
      (logs.map Prod.fst).Nodup →
      ((splitWalkAux averageSpeed event n current logs).map Prod.fst).Nodup := by
  induction n with
  | zero => intro current logs h; exact h
  | succ m ih =>
    intro current logs h
    by_cases hc : current < event.«end»
    · simp only [splitWalkAux, if_pos hc]
      refine ih _ _ ?_
      simp only [addSegment]
      exact assocBump_keys_nodup _ _ h
    · rw [splitWalkAux_exit averageSpeed event (m + 1) current logs hc]
      exact h

/-- The running invariant of the `splitEventsIntoDays` fold: after
processing events covering `[t0, τ]`, each day's recorded total is the
hour-length of that day's intersection with `[t0, τ]`, only days meeting
`[t0, τ]` have logs, and the day keys are distinct. -/
def SplitInv (t0 τ : Int) (logs : List (Int × DailyLog)) : Prop :=
  (∀ d, daySum logs d = hoursOfMs (overlap t0 τ d)) ∧
  (∀ d, (lookupLog logs d).isSome = true → 0 < overlap t0 τ d) ∧
  (logs.map Prod.fst).Nodup

theorem splitFold_inv (averageSpeed : ℚ) (evs : List DutyEvent) :
    ∀ (t0 τ T : Int) (logs : List (Int × DailyLog)),
      EventsChain τ evs T → (∀ e ∈ evs, e.start ≤ e.«end») → t0 ≤ τ →
      SplitInv t0 τ logs →
      SplitInv t0 T (evs.foldl (fun l e => splitWalk averageSpeed e l) logs) := by
  induction evs with
  | nil =>
    intro t0 τ T logs hch hwf ht hinv
    have hT : τ = T := hch
    exact hT ▸ hinv
  | cons e es ih =>
    intro t0 τ T logs hch hwf ht hinv
    obtain ⟨he, hch'⟩ := hch
    have hew : e.start ≤ e.«end» := hwf e (List.mem_cons_self _ _)
    have hτe : τ ≤ e.«end» := he ▸ hew
    simp only [List.foldl_cons]
    refine ih t0 e.«end» T _ hch' (fun x hx => hwf x (List.mem_cons_of_mem _ hx))
      (ht.trans hτe) ?_
    obtain ⟨hsum, hsome, hnd⟩ := hinv
    have hfuel : e.start < e.«end» →
        (dayIdx e.«end» - dayIdx e.start).toNat <
          (dayIdx e.«end» - dayIdx e.start).toNat + 1 := fun _ => Nat.lt_succ_self _
    refine ⟨?_, ?_, ?_⟩
    · intro d
      simp only [splitWalk]
      rw [daySum_splitWalkAux averageSpeed e _ e.start logs hfuel d, hsum d, he,
        overlap_split d ht hτe]
      simp only [hoursOfMs]
      push_cast
      ring
    · intro d hsm
      simp only [splitWalk] at hsm
      rcases isSome_splitWalkAux averageSpeed e _ e.start logs d hsm with h1 | h1
      · exact overlap_pos_mono d le_rfl hτe (hsome d h1)
      · refine overlap_pos_mono d ?_ le_rfl h1
        rw [he]; exact ht
    · simp only [splitWalk]
      exact splitWalkAux_keys_nodup averageSpeed e _ e.start logs hnd

/-! ## Evaluation of closed runs

Mathlib marks the core `Rat` field operations `[irreducible]`, which stops
`decide` from evaluating closed scheduler runs during elaboration (the
kernel itself reduces them fine).  The development's closed theorems
evaluate concrete runs, so the matching-the-kernel `[semireducible]` status
is restored for exactly those operations. -/

set_option allowUnsafeReducibility true

attribute [semireducible] Rat.add Rat.sub Rat.mul Rat.inv Rat.ofScientific

/-! ## Concrete fixtures

A computable distance function and concrete routes/profiles used by the
closed (counter)example theorems.  `distAbs20` is 20 miles per degree of
latitude difference, so the §8 scenario waypoints at latitudes 0, 2, 5 get
leg distances 40 and 60. -/

def distAbs20 : ℚ × ℚ → ℚ × ℚ → ℚ := fun p q => |q.1 - p.1| * 20

/-- The spec §8 scenario route: 100 miles, 2 h of driving, legs 40/60 under
`distAbs20`. -/
def tripRoute40_60 : RouteResult :=
  { distanceMiles := 100, durationHours := 2, polyline := [], instructions := []
    points := { origin := ⟨"Origin", 0, 0⟩, pickup := ⟨"Pickup", 2, 0⟩
                dropoff := ⟨"Dropoff", 5, 0⟩ } }

/-- 2024-03-01T08:00:00 (UTC = local) in epoch milliseconds. -/
def scenarioStart : Int := 1709280000000

/-- A route whose two legs split equally (9 h and 9 h of driving). -/
def tripRouteEqualLegs : RouteResult :=
  { distanceMiles := 900, durationHours := 18, polyline := [], instructions := []
    points := { origin := ⟨"Origin", 0, 0⟩, pickup := ⟨"Pickup", 1, 0⟩
                dropoff := ⟨"Dropoff", 2, 0⟩ } }

/-- A route with no origin-to-pickup leg and 25 h of pickup-to-dropoff
driving. -/
def tripRouteLeg2_25h : RouteResult :=
  { distanceMiles := 1000, durationHours := 25, polyline := [], instructions := []
    points := { origin := ⟨"Origin", 0, 0⟩, pickup := ⟨"Pickup", 0, 0⟩
                dropoff := ⟨"Dropoff", 1, 0⟩ } }

/-- A route with no origin-to-pickup leg and 1 h of pickup-to-dropoff
driving. -/
def tripRouteLeg2_1h : RouteResult :=
  { distanceMiles := 50, durationHours := 1, polyline := [], instructions := []
    points := { origin := ⟨"Origin", 0, 0⟩, pickup := ⟨"Pickup", 0, 0⟩
                dropoff := ⟨"Dropoff", 1, 0⟩ } }

/-- A route with no origin-to-pickup leg and 10 h of pickup-to-dropoff
driving. -/
def tripRouteLeg2_10h : RouteResult :=
  { distanceMiles := 500, durationHours := 10, polyline := [], instructions := []
    points := { origin := ⟨"Origin", 0, 0⟩, pickup := ⟨"Pickup", 0, 0⟩
                dropoff := ⟨"Dropoff", 1, 0⟩ } }

/-- The FMCSA profile with `breakDurationMinutes` set to 0. -/
def fmcsaZeroBreak : HosProfileConfig :=
  { HOS_PROFILE_CONFIG_PROPERTY_CARRYING_US_FMCSA with
    breakRules := { HOS_PROFILE_CONFIG_PROPERTY_CARRYING_US_FMCSA.breakRules with
      breakDurationMinutes := 0 } }

/-- The FMCSA profile with `breakDurationMinutes` set to -120. -/
def fmcsaNegativeBreak : HosProfileConfig :=
  { HOS_PROFILE_CONFIG_PROPERTY_CARRYING_US_FMCSA with
    breakRules := { HOS_PROFILE_CONFIG_PROPERTY_CARRYING_US_FMCSA.breakRules with
      breakDurationMinutes := -120 } }

/-- The FMCSA profile degenerated to `maxDrivingHours = 0` and
`minOffDutyBeforeShiftHours = 0`. -/
def fmcsaZeroCaps : HosProfileConfig :=
  { HOS_PROFILE_CONFIG_PROPERTY_CARRYING_US_FMCSA with
    shiftRules := { HOS_PROFILE_CONFIG_PROPERTY_CARRYING_US_FMCSA.shiftRules with
      maxDrivingHours := 0, minOffDutyBeforeShiftHours := 0 } }

/-! ## Claim C1 -/

/-- C1 (amended): for every route, start time, profile with nonnegative
`breakDurationMinutes` and `minOffDutyBeforeShiftHours`, distance function
and speed, whenever `generateDutyEvents` returns an event list, that list is
nonempty and contiguous (`events[i].end = events[i+1].start`), every event
has `start ≤ end` (strictness can fail: a zero or sub-millisecond block
duration yields `start = end`, see the counterexample), the first event
starts at local midnight of the day containing `startTime`, and the last
event ends at 23:59:59.999 local time of the day the schedule finishes
on. -/
theorem c1_contiguous_full_day_coverage {dist : ℚ × ℚ → ℚ × ℚ → ℚ}
    {route : RouteResult} {startTime : Int} {config : HosProfileConfig}
    {averageSpeed : ℚ} {fuel : Nat} {evs : List DutyEvent}
    (hb : 0 ≤ config.breakRules.breakDurationMinutes)
    (hm : 0 ≤ config.shiftRules.minOffDutyBeforeShiftHours)
    (h : generateDutyEvents dist route startTime config averageSpeed fuel = some evs) :
    evs ≠ [] ∧
    (∀ e, evs.head? = some e → e.start = dayStart startTime) ∧
    List.Chain' (fun a b => a.«end» = b.start) evs ∧
    (∀ e ∈ evs, e.start ≤ e.«end») ∧
    (∀ e, evs.getLast? = some e → e.«end» % 86400000 = 86399999) := by
  obtain ⟨T, hc, hw, hT⟩ := generateDutyEvents_chain hb hm h
  have hne : evs ≠ [] := by
    intro he
    subst he
    have h0 : dayStart startTime = T := hc
    have h1 := dayStart_emod startTime
    rw [h0] at h1
    omega
  refine ⟨hne, ?_, eventsChain_chain' hc, hw, ?_⟩
  · intro e he
    exact eventsChain_head hc he
  · intro e he
    rw [eventsChain_getLast hc he]
    exact hT

/-- C1 witness: the amended statement instantiated at the §8 scenario run. -/
theorem c1_contiguous_witness :
    ((generateDutyEvents distAbs20 tripRoute40_60 scenarioStart
      HOS_PROFILE_CONFIG_PROPERTY_CARRYING_US_FMCSA 50 100).getD []) ≠ [] ∧
    List.Chain' (fun a b => a.«end» = b.start)
      ((generateDutyEvents distAbs20 tripRoute40_60 scenarioStart
        HOS_PROFILE_CONFIG_PROPERTY_CARRYING_US_FMCSA 50 100).getD []) := by
  have h := c1_contiguous_full_day_coverage (by decide) (by decide)
    (show generateDutyEvents distAbs20 tripRoute40_60 scenarioStart
      HOS_PROFILE_CONFIG_PROPERTY_CARRYING_US_FMCSA 50 100 =
      some ((generateDutyEvents distAbs20 tripRoute40_60 scenarioStart
        HOS_PROFILE_CONFIG_PROPERTY_CARRYING_US_FMCSA 50 100).getD []) by decide)
  exact ⟨h.1, h.2.2.1⟩

/-- C1 counterexample: with `breakDurationMinutes = 0` (and positive average
speed 50) the returned sequence contains an event with `start = end`, so the
claimed strict ordering `start < end` fails. -/
theorem c1_strictness_counterexample :
    (generateDutyEvents distAbs20 tripRouteEqualLegs scenarioStart
      fmcsaZeroBreak 50 100).isSome = true ∧
    ∃ e ∈ (generateDutyEvents distAbs20 tripRouteEqualLegs scenarioStart
      fmcsaZeroBreak 50 100).getD [], e.start = e.«end» := by decide

/-! ## Claim C3 -/

/-- C3: the §8 short single-day scenario.  With the default FMCSA profile,
2 h of driving split 40/60 over the legs, average speed 50 and start
2024-03-01T08:00:00, the run returns exactly the eight-event sequence of the
spec (off-duty pad to 08:00, 15-min pre-trip, 0.8 h leg-1 driving to 09:03,
1 h pickup, 1.2 h leg-2 driving to 11:15, 1 h dropoff, 15-min post-trip,
final pad to 23:59:59.999), and `splitEventsIntoDays` returns one DailyLog
with driving 2 h, on-duty 2.5 h, sleeper 0 h, off-duty within 1e-6 of
19.5 h, and a day total within 1e-6 of 24 h (the 23:59:59.999 pad leaves the
last millisecond uncovered, hence the tolerance). -/
theorem c3_short_single_day_scenario :
    ((generateDutyEvents distAbs20 tripRoute40_60 scenarioStart
      HOS_PROFILE_CONFIG_PROPERTY_CARRYING_US_FMCSA 50 100).getD []).map
        (fun e => (e.status, e.start, e.«end»)) =
      [(DutyStatus.off_duty, 1709251200000, 1709280000000),
       (DutyStatus.on_duty_not_driving, 1709280000000, 1709280900000),
       (DutyStatus.driving, 1709280900000, 1709283780000),
       (DutyStatus.on_duty_not_driving, 1709283780000, 1709287380000),
       (DutyStatus.driving, 1709287380000, 1709291700000),
       (DutyStatus.on_duty_not_driving, 1709291700000, 1709295300000),
       (DutyStatus.on_duty_not_driving, 1709295300000, 1709296200000),
       (DutyStatus.off_duty, 1709296200000, 1709337599999)] ∧
    (generateDutyEvents distAbs20 tripRoute40_60 scenarioStart
      HOS_PROFILE_CONFIG_PROPERTY_CARRYING_US_FMCSA 50 100).isSome = true ∧
    (splitEventsIntoDays ((generateDutyEvents distAbs20 tripRoute40_60 scenarioStart
      HOS_PROFILE_CONFIG_PROPERTY_CARRYING_US_FMCSA 50 100).getD []) 50).length = 1 ∧
    ∃ log ∈ splitEventsIntoDays ((generateDutyEvents distAbs20 tripRoute40_60
      scenarioStart HOS_PROFILE_CONFIG_PROPERTY_CARRYING_US_FMCSA 50 100).getD []) 50,
      log.totals.driving = 2 ∧ log.totals.on_duty_not_driving = 5/2 ∧
      log.totals.sleeper_berth = 0 ∧ |log.totals.off_duty - 39/2| ≤ 1/1000000 ∧
      |log.totals.sum - 24| ≤ 1/1000000 := by decide

/-! ## Claim C4 -/

/-- C4: the code performs no input validation.  With `averageSpeed = 0` on
the §8 scenario route, `generateDutyEvents` terminates normally and returns
the full eight-event schedule — no validation error is raised before (or
instead of) emitting events.  (The driving loops consume leg time, not
distance, so a zero speed does not even make the run hang; it only zeroes
the mileage bookkeeping.) -/
theorem c4_zero_speed_emits_full_schedule :
    (generateDutyEvents distAbs20 tripRoute40_60 scenarioStart
      HOS_PROFILE_CONFIG_PROPERTY_CARRYING_US_FMCSA 0 100).isSome = true ∧
    ((generateDutyEvents distAbs20 tripRoute40_60 scenarioStart
      HOS_PROFILE_CONFIG_PROPERTY_CARRYING_US_FMCSA 0 100).getD []).length = 8 := by
  decide

/-! ## Config congruence: the per-status flags are never consulted -/

theorem leg1Loop_cfg_congr {cfg1 cfg2 : HosProfileConfig} {dist : ℚ × ℚ → ℚ × ℚ → ℚ}
    {polyline : List (ℚ × ℚ)} {averageSpeed : ℚ}
    (hs : cfg1.shiftRules = cfg2.shiftRules) (hb : cfg1.breakRules = cfg2.breakRules) :
    ∀ fuel remaining s,
      leg1Loop cfg1 dist polyline averageSpeed fuel remaining s =
        leg1Loop cfg2 dist polyline averageSpeed fuel remaining s := by
  intro fuel
  induction fuel with
  | zero => intro r s; rfl
  | succ n ih =>
    intro r s
    simp only [leg1Loop, applyBreak, applyDriving, drivableChunk, hs, hb]
    split
    · split
      · exact ih _ _
      · split
        · rfl
        · exact ih _ _
    · rfl

theorem leg2Loop_cfg_congr {cfg1 cfg2 : HosProfileConfig} {dist : ℚ × ℚ → ℚ × ℚ → ℚ}
    {polyline : List (ℚ × ℚ)} {averageSpeed : ℚ}
    (hs : cfg1.shiftRules = cfg2.shiftRules) (hb : cfg1.breakRules = cfg2.breakRules) :
    ∀ fuel remaining s,
      leg2Loop cfg1 dist polyline averageSpeed fuel remaining s =
        leg2Loop cfg2 dist polyline averageSpeed fuel remaining s := by
  intro fuel
  induction fuel with
  | zero => intro r s; rfl
  | succ n ih =>
    intro r s
    simp only [leg2Loop, applyBreak, applyDriving, applySleeper, applyFuel,
      drivableChunk, hs, hb]
    split
    · split
      · split
        · exact ih _ _
        · split
          · exact ih _ _
          · split
            · exact ih _ _
            · exact ih _ _
      · split
        · exact ih _ _
        · split
          · exact ih _ _
          · split
            · exact ih _ _
            · exact ih _ _
    · rfl

/-! ## Claim C10 -/

/-- C10: every inserted off-duty break adds its full duration to the
`shiftDutyWindowHours` accumulator, even though the FMCSA profile's
`dutyStatuses` flags declare `off_duty` with `countsTowardDutyWindow =
false`; the scheduler never consults the per-status flags (two profiles
differing only in `dutyStatuses` produce identical output); `addEvent`
itself (hence the initial midnight pad, which is a bare `addEvent`) adds
nothing to the accumulator, the whole pad-plus-pre-trip preamble leaves it
at the pre-trip's 1/4 h, and the sleeper-rest branch leaves it at 0. -/
theorem c10_breaks_count_toward_duty_window :
    (∀ cfg : HosProfileConfig, ∀ dist polyline averageSpeed (s : St),
      (applyBreak cfg dist polyline averageSpeed s).shiftDutyWindowHours =
        s.shiftDutyWindowHours + cfg.breakRules.breakDurationMinutes / 60) ∧
    (∀ cfg : HosProfileConfig, ∀ dist route startTime averageSpeed fuel f g,
      generateDutyEvents dist route startTime { cfg with dutyStatuses := f }
          averageSpeed fuel =
        generateDutyEvents dist route startTime { cfg with dutyStatuses := g }
          averageSpeed fuel) ∧
    HOS_PROFILE_CONFIG_PROPERTY_CARRYING_US_FMCSA.dutyStatuses.off_duty.countsTowardDutyWindow
      = false ∧
    (∀ dist polyline averageSpeed status durationHours loc rem (s : St),
      (addEvent dist polyline averageSpeed status durationHours loc rem
        s).shiftDutyWindowHours = s.shiftDutyWindowHours) ∧
    (∀ dist route startTime averageSpeed,
      (preamble dist route startTime averageSpeed).shiftDutyWindowHours = 1/4) ∧
    (∀ cfg : HosProfileConfig, ∀ dist polyline averageSpeed loc rem (s : St),
      (applySleeper cfg dist polyline averageSpeed loc rem s).shiftDutyWindowHours
        = 0) := by
  refine ⟨fun cfg dist polyline averageSpeed s => rfl,
    fun cfg dist route startTime averageSpeed fuel f g => ?_, rfl,
    fun dist polyline averageSpeed status durationHours loc rem s => rfl,
    fun dist route startTime averageSpeed => ?_,
    fun cfg dist polyline averageSpeed loc rem s => rfl⟩
  · have e1 : ∀ fuel remaining s,
        leg1Loop { cfg with dutyStatuses := f } dist route.polyline averageSpeed
            fuel remaining s =
          leg1Loop { cfg with dutyStatuses := g } dist route.polyline averageSpeed
            fuel remaining s :=
      leg1Loop_cfg_congr rfl rfl
    have e2 : ∀ fuel remaining s,
        leg2Loop { cfg with dutyStatuses := f } dist route.polyline averageSpeed
            fuel remaining s =
          leg2Loop { cfg with dutyStatuses := g } dist route.polyline averageSpeed
            fuel remaining s :=
      leg2Loop_cfg_congr rfl rfl
    simp only [generateDutyEvents, e1, e2]
  · simp only [preamble, addWindow, addEvent]
    rw [apply_ite (fun s : St => s.shiftDutyWindowHours)]
    norm_num

/-! ## Claim C5 -/

theorem leg2Loop_zeroCaps_stalls {dist : ℚ × ℚ → ℚ × ℚ → ℚ}
    {polyline : List (ℚ × ℚ)} {averageSpeed : ℚ} :
    ∀ fuel (s : St), 0 ≤ s.shiftDrivingHours → s.milesSinceFuel < 1000 →
      leg2Loop fmcsaZeroCaps dist polyline averageSpeed fuel 1 s = none := by
  intro fuel
  induction fuel with
  | zero =>
    intro s h1 h2
    simp only [leg2Loop]
    rw [if_pos (by norm_num : (0:ℚ) < 1)]
  | succ n ih =>
    intro s h1 h2
    simp only [leg2Loop]
    rw [if_pos (by norm_num : (0:ℚ) < 1), if_neg (not_le.mpr h2)]
    have hmax : fmcsaZeroCaps.shiftRules.maxDrivingHours ≤ s.shiftDrivingHours := by
      rw [show fmcsaZeroCaps.shiftRules.maxDrivingHours = (0:ℚ) from rfl]
      exact h1
    rw [if_pos (Or.inl hmax)]
    exact ih _ (le_refl 0) h2

/-- C5: the code has no stall detection and no error signalling.  With the
degenerate profile `maxDrivingHours = 0`, `minOffDutyBeforeShiftHours = 0`
and a 1 h pickup-to-dropoff leg, the leg-2 loop makes zero forward progress
in both time and constraint state, and `generateDutyEvents` never returns —
the fueled embedding yields `none` for every iteration budget — instead of
raising a scheduling error; moreover each stalled iteration silently appends
a zero-duration `sleeper_berth` event (`start = end`). -/
theorem c5_zero_progress_loops_forever :
    (∀ fuel : Nat, generateDutyEvents distAbs20 tripRouteLeg2_1h scenarioStart
      fmcsaZeroCaps 50 fuel = none) ∧
    (∀ (s : St) (loc rem : String), ∃ e : DutyEvent,
      (applySleeper fmcsaZeroCaps distAbs20 [] 50 loc rem s).events =
        s.events ++ [e] ∧
      e.start = e.«end» ∧ e.status = DutyStatus.sleeper_berth) := by
  constructor
  · intro fuel
    have hlegs : legSplit distAbs20 tripRouteLeg2_1h = (0, 1) := by decide
    simp only [generateDutyEvents, hlegs]
    rw [if_neg (by norm_num : ¬ (0:ℚ) < ((0:ℚ), (1:ℚ)).1)]
    dsimp only
    rw [leg2Loop_zeroCaps_stalls fuel _ (by decide) (by decide)]
  · intro s loc rem
    refine ⟨_, rfl, ?_, rfl⟩
    show s.currentTime = s.currentTime +
      ⌊fmcsaZeroCaps.shiftRules.minOffDutyBeforeShiftHours * (60 * 60 * 1000 : ℚ)⌋
    rw [show fmcsaZeroCaps.shiftRules.minOffDutyBeforeShiftHours = 0 from rfl]
    norm_num

/-! ## Claim C7: sleeper rests in the leg-2 loop -/

/-- Number of `sleeper_berth` events in a list. -/
def countSleeper (es : List DutyEvent) : Nat :=
  es.countP (fun e => e.status == DutyStatus.sleeper_berth)

theorem countSleeper_addWindow {q : ℚ} {s : St} :
    countSleeper ((addWindow q s).events) = countSleeper s.events := rfl

theorem countSleeper_addEvent {dist polyline averageSpeed status durationHours loc rem}
    {s : St} (h : status ≠ DutyStatus.sleeper_berth) :
    countSleeper ((addEvent dist polyline averageSpeed status durationHours loc rem
      s).events) = countSleeper s.events := by
  have hb : (status == DutyStatus.sleeper_berth) = false := beq_eq_false_iff_ne.mpr h
  simp [countSleeper, addEvent, List.countP_append, List.countP_cons, hb]

theorem countSleeper_applyBreak {cfg : HosProfileConfig} {dist polyline averageSpeed}
    {s : St} :
    countSleeper ((applyBreak cfg dist polyline averageSpeed s).events) =
      countSleeper s.events :=
  @countSleeper_addEvent dist polyline averageSpeed _ _ _ _ s (by decide)

theorem countSleeper_applyFuel {dist polyline averageSpeed} {s : St} :
    countSleeper ((applyFuel dist polyline averageSpeed s).events) =
      countSleeper s.events :=
  @countSleeper_addEvent dist polyline averageSpeed _ _ _ _ s (by decide)

theorem countSleeper_applyDriving {dist polyline averageSpeed chunk loc rem} {s : St} :
    countSleeper ((applyDriving dist polyline averageSpeed chunk loc rem s).events) =
      countSleeper s.events :=
  @countSleeper_addEvent dist polyline averageSpeed _ _ _ _ s (by decide)

theorem countSleeper_applySleeper {cfg : HosProfileConfig}
    {dist polyline averageSpeed loc rem} {s : St} :
    countSleeper ((applySleeper cfg dist polyline averageSpeed loc rem s).events) =
      countSleeper s.events + 1 := by
  simp [countSleeper, applySleeper, addEvent, List.countP_append, List.countP_cons]

theorem shiftDriving_applyBreak {cfg : HosProfileConfig} {dist polyline averageSpeed}
    {s : St} :
    (applyBreak cfg dist polyline averageSpeed s).shiftDrivingHours =
      s.shiftDrivingHours := rfl

theorem shiftDriving_applyFuel {dist polyline averageSpeed} {s : St} :
    (applyFuel dist polyline averageSpeed s).shiftDrivingHours =
      s.shiftDrivingHours := rfl

theorem drivableChunk_le_headroom {cfg : HosProfileConfig} {remaining : ℚ} {s : St} :
    drivableChunk cfg remaining s ≤
      cfg.shiftRules.maxDrivingHours - s.shiftDrivingHours :=
  (min_le_right _ _).trans (min_le_left _ _)

theorem leg1Loop_countSleeper {cfg : HosProfileConfig} {dist polyline averageSpeed} :
    ∀ fuel remaining (s s' : St),
      leg1Loop cfg dist polyline averageSpeed fuel remaining s = some s' →
      countSleeper s'.events = countSleeper s.events := by
  intro fuel
  induction fuel with
  | zero =>
    intro r s s' h
    simp only [leg1Loop] at h
    split at h
    · exact absurd h (by simp)
    · rw [← Option.some_inj.mp h]
  | succ n ih =>
    intro r s s' h
    simp only [leg1Loop] at h
    split at h
    · split at h
      · rw [ih _ _ _ h, countSleeper_applyBreak]
      · split at h
        · rw [← Option.some_inj.mp h]
        · rw [ih _ _ _ h, countSleeper_applyDriving]
    · rw [← Option.some_inj.mp h]

theorem leg2Loop_countSleeper_mono {cfg : HosProfileConfig}
    {dist polyline averageSpeed} :
    ∀ fuel remaining (s s' : St),
      leg2Loop cfg dist polyline averageSpeed fuel remaining s = some s' →
      countSleeper s.events ≤ countSleeper s'.events := by
  intro fuel
  induction fuel with
  | zero =>
    intro r s s' h
    simp only [leg2Loop] at h
    split at h
    · exact absurd h (by simp)
    · rw [← Option.some_inj.mp h]
  | succ n ih =>
    intro r s s' h
    have key : ∀ sf : St, countSleeper sf.events = countSleeper s.events →
        (if cfg.shiftRules.maxDrivingHours ≤ sf.shiftDrivingHours ∨
            cfg.shiftRules.maxDutyWindowHours ≤ sf.shiftDutyWindowHours then
          leg2Loop cfg dist polyline averageSpeed n r
            (applySleeper cfg dist polyline averageSpeed "Truck Stop"
              (toString cfg.shiftRules.minOffDutyBeforeShiftHours ++ "h Daily Rest") sf)
        else if cfg.breakRules.requiredAfterDrivingHours ≤ sf.drivingSinceLastBreakHours then
          leg2Loop cfg dist polyline averageSpeed n r
            (applyBreak cfg dist polyline averageSpeed sf)
        else if drivableChunk cfg r sf ≤ 0 then
          leg2Loop cfg dist polyline averageSpeed n r
            (applySleeper cfg dist polyline averageSpeed "Rest Area" "Duty Window Rest" sf)
        else
          leg2Loop cfg dist polyline averageSpeed n (r - drivableChunk cfg r sf)
            (applyDriving dist polyline averageSpeed (drivableChunk cfg r sf)
              "En Route to Dropoff" "Driving to Delivery Location" sf)) = some s' →
        countSleeper s.events ≤ countSleeper s'.events := by
      intro sf hcnt hh
      split at hh
      · have := ih _ _ _ hh
        rw [countSleeper_applySleeper, hcnt] at this
        omega
      · split at hh
        · have := ih _ _ _ hh
          rw [countSleeper_applyBreak, hcnt] at this
          omega
        · split at hh
          · have := ih _ _ _ hh
            rw [countSleeper_applySleeper, hcnt] at this
            omega
          · have := ih _ _ _ hh
            rw [countSleeper_applyDriving, hcnt] at this
            omega
    simp only [leg2Loop] at h
    split at h
    · split at h
      · exact key _ countSleeper_applyFuel h
      · exact key _ rfl h
    · rw [← Option.some_inj.mp h]

theorem leg1Loop_sd_bounds {cfg : HosProfileConfig} {dist polyline averageSpeed}
    (_h0 : 0 ≤ cfg.shiftRules.maxDrivingHours) :
    ∀ fuel remaining (s s' : St),
      leg1Loop cfg dist polyline averageSpeed fuel remaining s = some s' →
      0 ≤ s.shiftDrivingHours →
      s.shiftDrivingHours ≤ cfg.shiftRules.maxDrivingHours →
      0 ≤ s'.shiftDrivingHours ∧
        s'.shiftDrivingHours ≤ cfg.shiftRules.maxDrivingHours := by
  intro fuel
  induction fuel with
  | zero =>
    intro r s s' h hl hu
    simp only [leg1Loop] at h
    split at h
    · exact absurd h (by simp)
    · exact Option.some_inj.mp h ▸ ⟨hl, hu⟩
  | succ n ih =>
    intro r s s' h hl hu
    simp only [leg1Loop] at h
    split at h
    · split at h
      · exact ih _ _ _ h hl hu
      · split at h
        · exact Option.some_inj.mp h ▸ ⟨hl, hu⟩
        · rename_i hc
          have hchunk := not_le.mp hc
          have hhead : drivableChunk cfg r s ≤
              cfg.shiftRules.maxDrivingHours - s.shiftDrivingHours :=
            drivableChunk_le_headroom
          refine ih _ _ _ h ?_ ?_
          · show 0 ≤ s.shiftDrivingHours + drivableChunk cfg r s
            linarith
          · show s.shiftDrivingHours + drivableChunk cfg r s ≤
              cfg.shiftRules.maxDrivingHours
            linarith
    · exact Option.some_inj.mp h ▸ ⟨hl, hu⟩

theorem leg2Loop_sd_bounds {cfg : HosProfileConfig} {dist polyline averageSpeed}
    (h0 : 0 ≤ cfg.shiftRules.maxDrivingHours) :
    ∀ fuel remaining (s s' : St),
      leg2Loop cfg dist polyline averageSpeed fuel remaining s = some s' →
      0 ≤ s.shiftDrivingHours →
      s.shiftDrivingHours ≤ cfg.shiftRules.maxDrivingHours →
      0 ≤ s'.shiftDrivingHours ∧
        s'.shiftDrivingHours ≤ cfg.shiftRules.maxDrivingHours := by
  intro fuel
  induction fuel with
  | zero =>
    intro r s s' h hl hu
    simp only [leg2Loop] at h
    split at h
    · exact absurd h (by simp)
    · exact Option.some_inj.mp h ▸ ⟨hl, hu⟩
  | succ n ih =>
    intro r s s' h hl hu
    have key : ∀ sf : St, 0 ≤ sf.shiftDrivingHours →
        sf.shiftDrivingHours ≤ cfg.shiftRules.maxDrivingHours →
        (if cfg.shiftRules.maxDrivingHours ≤ sf.shiftDrivingHours ∨
            cfg.shiftRules.maxDutyWindowHours ≤ sf.shiftDutyWindowHours then
          leg2Loop cfg dist polyline averageSpeed n r
            (applySleeper cfg dist polyline averageSpeed "Truck Stop"
              (toString cfg.shiftRules.minOffDutyBeforeShiftHours ++ "h Daily Rest") sf)
        else if cfg.breakRules.requiredAfterDrivingHours ≤ sf.drivingSinceLastBreakHours then
          leg2Loop cfg dist polyline averageSpeed n r
            (applyBreak cfg dist polyline averageSpeed sf)
        else if drivableChunk cfg r sf ≤ 0 then
          leg2Loop cfg dist polyline averageSpeed n r
            (applySleeper cfg dist polyline averageSpeed "Rest Area" "Duty Window Rest" sf)
        else
          leg2Loop cfg dist polyline averageSpeed n (r - drivableChunk cfg r sf)
            (applyDriving dist polyline averageSpeed (drivableChunk cfg r sf)
              "En Route to Dropoff" "Driving to Delivery Location" sf)) = some s' →
        0 ≤ s'.shiftDrivingHours ∧
          s'.shiftDrivingHours ≤ cfg.shiftRules.maxDrivingHours := by
      intro sf hfl hfu hh
      split at hh
      · exact ih _ _ _ hh (le_refl 0) h0
      · split at hh
        · exact ih _ _ _ hh hfl hfu
        · split at hh
          · exact ih _ _ _ hh (le_refl 0) h0
          · rename_i hc
            have hchunk := not_le.mp hc
            have hhead : drivableChunk cfg r sf ≤
                cfg.shiftRules.maxDrivingHours - sf.shiftDrivingHours :=
              drivableChunk_le_headroom
            refine ih _ _ _ hh ?_ ?_
            · show 0 ≤ sf.shiftDrivingHours + drivableChunk cfg r sf
              linarith
            · show sf.shiftDrivingHours + drivableChunk cfg r sf ≤
                cfg.shiftRules.maxDrivingHours
              linarith
    simp only [leg2Loop] at h
    split at h
    · split at h
      · exact key (applyFuel dist polyline averageSpeed s) hl hu h
      · exact key s hl hu h
    · exact Option.some_inj.mp h ▸ ⟨hl, hu⟩

theorem leg2Loop_no_sleeper_bound {cfg : HosProfileConfig} {dist polyline averageSpeed} :
    ∀ fuel remaining (s s' : St),
      leg2Loop cfg dist polyline averageSpeed fuel remaining s = some s' →
      countSleeper s'.events = countSleeper s.events →
      s.shiftDrivingHours + remaining ≤ s'.shiftDrivingHours := by
  intro fuel
  induction fuel with
  | zero =>
    intro r s s' h hcnt
    simp only [leg2Loop] at h
    split at h
    · exact absurd h (by simp)
    · rename_i hr
      rw [← Option.some_inj.mp h]
      have := not_lt.mp hr
      linarith
  | succ n ih =>
    intro r s s' h hcnt
    have key : ∀ sf : St, sf.shiftDrivingHours = s.shiftDrivingHours →
        countSleeper sf.events = countSleeper s.events →
        (if cfg.shiftRules.maxDrivingHours ≤ sf.shiftDrivingHours ∨
            cfg.shiftRules.maxDutyWindowHours ≤ sf.shiftDutyWindowHours then
          leg2Loop cfg dist polyline averageSpeed n r
            (applySleeper cfg dist polyline averageSpeed "Truck Stop"
              (toString cfg.shiftRules.minOffDutyBeforeShiftHours ++ "h Daily Rest") sf)
        else if cfg.breakRules.requiredAfterDrivingHours ≤ sf.drivingSinceLastBreakHours then
          leg2Loop cfg dist polyline averageSpeed n r
            (applyBreak cfg dist polyline averageSpeed sf)
        else if drivableChunk cfg r sf ≤ 0 then
          leg2Loop cfg dist polyline averageSpeed n r
            (applySleeper cfg dist polyline averageSpeed "Rest Area" "Duty Window Rest" sf)
        else
          leg2Loop cfg dist polyline averageSpeed n (r - drivableChunk cfg r sf)
            (applyDriving dist polyline averageSpeed (drivableChunk cfg r sf)
              "En Route to Dropoff" "Driving to Delivery Location" sf)) = some s' →
        s.shiftDrivingHours + r ≤ s'.shiftDrivingHours := by
      intro sf hsd hc hh
      split at hh
      · have hmono := leg2Loop_countSleeper_mono _ _ _ _ hh
        rw [countSleeper_applySleeper, hc, hcnt] at hmono
        omega
      · split at hh
        · have := ih _ _ _ hh (by rw [hcnt, countSleeper_applyBreak, hc])
          rw [shiftDriving_applyBreak, hsd] at this
          exact this
        · split at hh
          · have hmono := leg2Loop_countSleeper_mono _ _ _ _ hh
            rw [countSleeper_applySleeper, hc, hcnt] at hmono
            omega
          · have := ih _ _ _ hh (by rw [hcnt, countSleeper_applyDriving, hc])
            have hsd2 : (applyDriving dist polyline averageSpeed
                (drivableChunk cfg r sf) "En Route to Dropoff"
                "Driving to Delivery Location" sf).shiftDrivingHours =
                sf.shiftDrivingHours + drivableChunk cfg r sf := rfl
            rw [hsd2, hsd] at this
            linarith
    simp only [leg2Loop] at h
    split at h
    · split at h
      · exact key _ shiftDriving_applyFuel countSleeper_applyFuel h
      · exact key _ rfl rfl h
    · rename_i hr
      rw [← Option.some_inj.mp h]
      have := not_lt.mp hr
      linarith

theorem preamble_shiftDriving {dist : ℚ × ℚ → ℚ × ℚ → ℚ} {route : RouteResult}
    {startTime : Int} {averageSpeed : ℚ} :
    (preamble dist route startTime averageSpeed).shiftDrivingHours = 0 := by
  simp only [preamble, addWindow, addEvent]
  rw [apply_ite (fun s : St => s.shiftDrivingHours)]
  norm_num

theorem preamble_countSleeper {dist : ℚ × ℚ → ℚ × ℚ → ℚ} {route : RouteResult}
    {startTime : Int} {averageSpeed : ℚ} :
    countSleeper (preamble dist route startTime averageSpeed).events = 0 := by
  have hOn : DutyStatus.on_duty_not_driving ≠ DutyStatus.sleeper_berth := by decide
  have hOff : DutyStatus.off_duty ≠ DutyStatus.sleeper_berth := by decide
  simp only [preamble]
  rw [countSleeper_addWindow, countSleeper_addEvent hOn]
  split
  · rw [countSleeper_addEvent hOff]
    rfl
  · rfl

theorem countSleeper_postlude {dist : ℚ × ℚ → ℚ × ℚ → ℚ} {route : RouteResult}
    {averageSpeed : ℚ} {s5 : St} :
    countSleeper ((postlude dist route averageSpeed s5).events) =
      countSleeper s5.events := by
  have hOn : DutyStatus.on_duty_not_driving ≠ DutyStatus.sleeper_berth := by decide
  have hOff : DutyStatus.off_duty ≠ DutyStatus.sleeper_berth := by decide
  simp only [postlude]
  split
  · rw [countSleeper_addEvent hOff, countSleeper_addEvent hOn,
      countSleeper_addWindow, countSleeper_addEvent hOn]
  · rw [countSleeper_addEvent hOn, countSleeper_addWindow,
      countSleeper_addEvent hOn]

/-- C7 (amended): whenever a run returns and the pickup-to-dropoff driving
time exceeds a nonnegative `maxDrivingHours`, the returned sequence contains
at least one `sleeper_berth` event (not exactly one: long trips produce
several, see the counterexample); and every sleeper-rest insertion of the
leg-2 loop emits one `sleeper_berth` event whose millisecond duration is
`minOffDutyBeforeShiftHours` converted to milliseconds, after which
`shiftDrivingHours`, `shiftDutyWindowHours` and `drivingSinceLastBreakHours`
are 0 while `milesSinceFuel` keeps its previous value (the code does not
reset the fourth accumulator). -/
theorem c7_sleeper_rest_insertion {dist : ℚ × ℚ → ℚ × ℚ → ℚ} {route : RouteResult}
    {startTime : Int} {cfg : HosProfileConfig} {averageSpeed : ℚ} {fuel : Nat}
    {evs : List DutyEvent}
    (h0 : 0 ≤ cfg.shiftRules.maxDrivingHours)
    (hgen : generateDutyEvents dist route startTime cfg averageSpeed fuel = some evs)
    (hexceed : cfg.shiftRules.maxDrivingHours < (legSplit dist route).2) :
    (∃ e ∈ evs, e.status = DutyStatus.sleeper_berth) ∧
    (∀ (s : St) (loc rem : String),
      (applySleeper cfg dist route.polyline averageSpeed loc rem s).shiftDrivingHours
        = 0 ∧
      (applySleeper cfg dist route.polyline averageSpeed loc rem
        s).shiftDutyWindowHours = 0 ∧
      (applySleeper cfg dist route.polyline averageSpeed loc rem
        s).drivingSinceLastBreakHours = 0 ∧
      (applySleeper cfg dist route.polyline averageSpeed loc rem s).milesSinceFuel
        = s.milesSinceFuel ∧
      ∃ e : DutyEvent,
        (applySleeper cfg dist route.polyline averageSpeed loc rem s).events =
          s.events ++ [e] ∧
        e.status = DutyStatus.sleeper_berth ∧
        e.«end» - e.start =
          ⌊cfg.shiftRules.minOffDutyBeforeShiftHours * (60 * 60 * 1000 : ℚ)⌋) := by
  constructor
  · by_contra hno
    push_neg at hno
    have hzero : countSleeper evs = 0 :=
      List.countP_eq_zero.mpr (fun e he => by simpa using hno e he)
    simp only [generateDutyEvents] at hgen
    split at hgen
    · exact absurd hgen (by simp)
    · rename_i s3 h1
      split at hgen
      · exact absurd hgen (by simp)
      · rename_i s5 h2
        have hevs : evs = (postlude dist route averageSpeed s5).events :=
          (Option.some_inj.mp hgen).symm
        have hc5 : countSleeper s5.events = 0 := by
          rw [hevs] at hzero
          rw [countSleeper_postlude] at hzero
          exact hzero
        have hmono := leg2Loop_countSleeper_mono _ _ _ _ h2
        have hcnt45 : countSleeper s5.events =
            countSleeper ((addWindow 1 (addEvent dist route.polyline averageSpeed
              .on_duty_not_driving 1 route.points.pickup.address "Pickup (Loading)"
              s3)).events) := by
          omega
        have hsum := leg2Loop_no_sleeper_bound _ _ _ _ h2 hcnt45
        have hs3 : 0 ≤ s3.shiftDrivingHours ∧
            s3.shiftDrivingHours ≤ cfg.shiftRules.maxDrivingHours := by
          split at h1
          · exact leg1Loop_sd_bounds h0 _ _ _ _ h1
              (by norm_num [preamble_shiftDriving])
              (by rw [preamble_shiftDriving]; exact h0)
          · have he := Option.some_inj.mp h1
            rw [← he, preamble_shiftDriving]
            exact ⟨le_refl 0, h0⟩
        have hs4sd : (addWindow 1 (addEvent dist route.polyline averageSpeed
            .on_duty_not_driving 1 route.points.pickup.address "Pickup (Loading)"
            s3)).shiftDrivingHours = s3.shiftDrivingHours := rfl
        have hs5bounds := leg2Loop_sd_bounds h0 _ _ _ _ h2
          (by rw [hs4sd]; exact hs3.1) (by rw [hs4sd]; exact hs3.2)
        rw [hs4sd] at hsum
        have := hs5bounds.2
        have := hs3.1
        linarith
  · intro s loc rem
    refine ⟨rfl, rfl, rfl, rfl, ⟨_, rfl, rfl, ?_⟩⟩
    show s.currentTime +
      ⌊cfg.shiftRules.minOffDutyBeforeShiftHours * (60 * 60 * 1000 : ℚ)⌋ -
      s.currentTime = ⌊cfg.shiftRules.minOffDutyBeforeShiftHours * (60 * 60 * 1000 : ℚ)⌋
    omega

/-- C7 witness: the amended statement applied to a 25 h pickup-to-dropoff
trip under the default profile (11 h driving cap). -/
theorem c7_sleeper_rest_witness :
    ∃ e ∈ (generateDutyEvents distAbs20 tripRouteLeg2_25h scenarioStart
      HOS_PROFILE_CONFIG_PROPERTY_CARRYING_US_FMCSA 40 100).getD [],
      e.status = DutyStatus.sleeper_berth := by
  have h := c7_sleeper_rest_insertion (by decide)
    (show generateDutyEvents distAbs20 tripRouteLeg2_25h scenarioStart
      HOS_PROFILE_CONFIG_PROPERTY_CARRYING_US_FMCSA 40 100 =
      some ((generateDutyEvents distAbs20 tripRouteLeg2_25h scenarioStart
        HOS_PROFILE_CONFIG_PROPERTY_CARRYING_US_FMCSA 40 100).getD []) by decide)
    (by decide)
  exact h.1

/-- C7 counterexample: the 25 h trip's total driving (25 h) exceeds the 11 h
`maxDrivingHours` within one duty window, yet the generated sequence
contains two `sleeper_berth` events, not exactly one. -/
theorem c7_two_sleepers_counterexample :
    HOS_PROFILE_CONFIG_PROPERTY_CARRYING_US_FMCSA.shiftRules.maxDrivingHours <
      tripRouteLeg2_25h.durationHours ∧
    countSleeper ((generateDutyEvents distAbs20 tripRouteLeg2_25h scenarioStart
      HOS_PROFILE_CONFIG_PROPERTY_CARRYING_US_FMCSA 40 100).getD []) = 2 := by
  decide

/-! ## Claim C8: no rest insertion in the leg-1 loop -/

theorem mem_applyBreak_events {cfg : HosProfileConfig} {dist polyline averageSpeed}
    {s : St} {e : DutyEvent}
    (h : e ∈ (applyBreak cfg dist polyline averageSpeed s).events) :
    e ∈ s.events ∨ (e.status = DutyStatus.off_duty ∧
      e.remarks = toString cfg.breakRules.breakDurationMinutes ++ "-min Break") := by
  simp only [applyBreak, addEvent, List.mem_append, List.mem_singleton] at h
  rcases h with h | rfl
  · exact Or.inl h
  · exact Or.inr ⟨rfl, rfl⟩

theorem mem_applyDriving_events {dist polyline averageSpeed chunk loc rem}
    {s : St} {e : DutyEvent}
    (h : e ∈ (applyDriving dist polyline averageSpeed chunk loc rem s).events) :
    e ∈ s.events ∨ (e.status = DutyStatus.driving ∧ e.remarks = rem) := by
  simp only [applyDriving, addEvent, List.mem_append, List.mem_singleton] at h
  rcases h with h | rfl
  · exact Or.inl h
  · exact Or.inr ⟨rfl, rfl⟩

theorem leg1Loop_added_events {cfg : HosProfileConfig} {dist polyline averageSpeed} :
    ∀ fuel remaining (s s' : St),
      leg1Loop cfg dist polyline averageSpeed fuel remaining s = some s' →
      ∀ e ∈ s'.events, e ∈ s.events ∨
        (e.status = DutyStatus.driving ∧ e.remarks = "Driving to Pickup Location") ∨
        (e.status = DutyStatus.off_duty ∧
          e.remarks = toString cfg.breakRules.breakDurationMinutes ++ "-min Break") := by
  intro fuel
  induction fuel with
  | zero =>
    intro r s s' h e he
    simp only [leg1Loop] at h
    split at h
    · exact absurd h (by simp)
    · exact Or.inl (Option.some_inj.mp h ▸ he)
  | succ n ih =>
    intro r s s' h e he
    simp only [leg1Loop] at h
    split at h
    · split at h
      · rcases ih _ _ _ h e he with hin | hrest
        · rcases mem_applyBreak_events hin with hin2 | hbk
          · exact Or.inl hin2
          · exact Or.inr (Or.inr hbk)
        · exact Or.inr hrest
      · split at h
        · exact Or.inl (Option.some_inj.mp h ▸ he)
        · rcases ih _ _ _ h e he with hin | hrest
          · rcases mem_applyDriving_events hin with hin2 | hdr
            · exact Or.inl hin2
            · exact Or.inr (Or.inl hdr)
          · exact Or.inr hrest
    · exact Or.inl (Option.some_inj.mp h ▸ he)

theorem addEvent_events_tail {dist polyline averageSpeed status durationHours loc rem}
    {s : St} :
    ∃ t, (addEvent dist polyline averageSpeed status durationHours loc rem s).events =
      s.events ++ t := ⟨_, rfl⟩

theorem applySleeper_events_tail {cfg : HosProfileConfig}
    {dist polyline averageSpeed loc rem} {s : St} :
    ∃ t, (applySleeper cfg dist polyline averageSpeed loc rem s).events =
      s.events ++ t := ⟨_, rfl⟩

theorem applyBreak_events_tail {cfg : HosProfileConfig}
    {dist polyline averageSpeed} {s : St} :
    ∃ t, (applyBreak cfg dist polyline averageSpeed s).events = s.events ++ t :=
  ⟨_, rfl⟩

theorem applyFuel_events_tail {dist polyline averageSpeed} {s : St} :
    ∃ t, (applyFuel dist polyline averageSpeed s).events = s.events ++ t := ⟨_, rfl⟩

theorem applyDriving_events_tail {dist polyline averageSpeed chunk loc rem} {s : St} :
    ∃ t, (applyDriving dist polyline averageSpeed chunk loc rem s).events =
      s.events ++ t := ⟨_, rfl⟩

theorem events_tail_trans {l1 l2 l3 : List DutyEvent}
    (h1 : ∃ t, l2 = l1 ++ t) (h2 : ∃ t, l3 = l2 ++ t) : ∃ t, l3 = l1 ++ t := by
  obtain ⟨a, ha⟩ := h1
  obtain ⟨b, hb⟩ := h2
  exact ⟨a ++ b, by rw [hb, ha, List.append_assoc]⟩

theorem leg2Loop_events_append {cfg : HosProfileConfig} {dist polyline averageSpeed} :
    ∀ fuel remaining (s s' : St),
      leg2Loop cfg dist polyline averageSpeed fuel remaining s = some s' →
      ∃ tail, s'.events = s.events ++ tail := by
  intro fuel
  induction fuel with
  | zero =>
    intro r s s' h
    simp only [leg2Loop] at h
    split at h
    · exact absurd h (by simp)
    · exact ⟨[], by rw [← Option.some_inj.mp h, List.append_nil]⟩
  | succ n ih =>
    intro r s s' h
    have key : ∀ sf : St, (∃ t0, sf.events = s.events ++ t0) →
        (if cfg.shiftRules.maxDrivingHours ≤ sf.shiftDrivingHours ∨
            cfg.shiftRules.maxDutyWindowHours ≤ sf.shiftDutyWindowHours then
          leg2Loop cfg dist polyline averageSpeed n r
            (applySleeper cfg dist polyline averageSpeed "Truck Stop"
              (toString cfg.shiftRules.minOffDutyBeforeShiftHours ++ "h Daily Rest") sf)
        else if cfg.breakRules.requiredAfterDrivingHours ≤ sf.drivingSinceLastBreakHours then
          leg2Loop cfg dist polyline averageSpeed n r
            (applyBreak cfg dist polyline averageSpeed sf)
        else if drivableChunk cfg r sf ≤ 0 then
          leg2Loop cfg dist polyline averageSpeed n r
            (applySleeper cfg dist polyline averageSpeed "Rest Area" "Duty Window Rest" sf)
        else
          leg2Loop cfg dist polyline averageSpeed n (r - drivableChunk cfg r sf)
            (applyDriving dist polyline averageSpeed (drivableChunk cfg r sf)
              "En Route to Dropoff" "Driving to Delivery Location" sf)) = some s' →
        ∃ tail, s'.events = s.events ++ tail := by
      intro sf hsf hh
      split at hh
      · exact events_tail_trans (events_tail_trans hsf applySleeper_events_tail)
          (ih _ _ _ hh)
      · split at hh
        · exact events_tail_trans (events_tail_trans hsf applyBreak_events_tail)
            (ih _ _ _ hh)
        · split at hh
          · exact events_tail_trans (events_tail_trans hsf applySleeper_events_tail)
              (ih _ _ _ hh)
          · exact events_tail_trans (events_tail_trans hsf applyDriving_events_tail)
              (ih _ _ _ hh)
    simp only [leg2Loop] at h
    split at h
    · split at h
      · exact key _ applyFuel_events_tail h
      · exact key _ ⟨[], (List.append_nil _).symm⟩ h
    · exact ⟨[], by rw [← Option.some_inj.mp h, List.append_nil]⟩

theorem postlude_events_append {dist : ℚ × ℚ → ℚ × ℚ → ℚ} {route : RouteResult}
    {averageSpeed : ℚ} {s5 : St} :
    ∃ tail, (postlude dist route averageSpeed s5).events = s5.events ++ tail := by
  have hd : ∃ t, (addWindow 1 (addEvent dist route.polyline averageSpeed
      DutyStatus.on_duty_not_driving 1 route.points.dropoff.address
      "Dropoff (Unloading)" s5)).events = s5.events ++ t :=
    @addEvent_events_tail dist route.polyline averageSpeed
      DutyStatus.on_duty_not_driving 1 route.points.dropoff.address
      "Dropoff (Unloading)" s5
  have hp : ∃ t, (addEvent dist route.polyline averageSpeed
      DutyStatus.on_duty_not_driving 0.25 route.points.dropoff.address
      "Post-trip Inspection" (addWindow 1 (addEvent dist route.polyline averageSpeed
        DutyStatus.on_duty_not_driving 1 route.points.dropoff.address
        "Dropoff (Unloading)" s5))).events =
      (addWindow 1 (addEvent dist route.polyline averageSpeed
        DutyStatus.on_duty_not_driving 1 route.points.dropoff.address
        "Dropoff (Unloading)" s5)).events ++ t := addEvent_events_tail
  have h67 := events_tail_trans hd hp
  simp only [postlude]
  split
  · exact events_tail_trans h67 addEvent_events_tail
  · exact h67

theorem takeWhile_middle {α : Type} (p : α → Bool) :
    ∀ (L : List α) (y : α) (R : List α), (∀ x ∈ L, p x = true) → p y = false →
      (L ++ y :: R).takeWhile p = L := by
  intro L
  induction L with
  | nil =>
    intro y R h hy
    simp [List.takeWhile_cons, hy]
  | cons a L2 ih =>
    intro y R h hy
    have ha := h a (List.mem_cons_self _ _)
    simp only [List.cons_append, List.takeWhile_cons, ha, if_true]
    rw [ih y R (fun x hx => h x (List.mem_cons_of_mem _ hx)) hy]

theorem break_remark_ne_pickup (q : ℚ) :
    toString q ++ "-min Break" ≠ "Pickup (Loading)" := by
  intro h
  have hd : (toString q ++ "-min Break").data = "Pickup (Loading)".data :=
    congrArg String.data h
  rw [String.data_append] at hd
  have hsuf : "-min Break".data <:+ "Pickup (Loading)".data :=
    hd ▸ List.suffix_append _ _
  exact absurd hsuf (by decide)

theorem mem_preamble_events {dist : ℚ × ℚ → ℚ × ℚ → ℚ} {route : RouteResult}
    {startTime : Int} {averageSpeed : ℚ} {e : DutyEvent}
    (he : e ∈ (preamble dist route startTime averageSpeed).events) :
    (e.status = DutyStatus.off_duty ∧
      e.remarks = "Off Duty - Continuous Rest Period") ∨
    (e.status = DutyStatus.on_duty_not_driving ∧
      e.remarks = "Pre-trip Inspection") := by
  by_cases hc : dayStart startTime < startTime
  · simp only [preamble, if_pos hc, addWindow, addEvent, List.nil_append,
      List.mem_append, List.mem_singleton] at he
    rcases he with rfl | rfl
    · exact Or.inl ⟨rfl, rfl⟩
    · exact Or.inr ⟨rfl, rfl⟩
  · simp only [preamble, if_neg hc, addWindow, addEvent, List.nil_append,
      List.mem_singleton] at he
    subst he
    exact Or.inr ⟨rfl, rfl⟩

/-- C8: the leg-1 (origin-to-pickup) loop never inserts a rest: every event
it appends is a driving chunk or an off-duty break, and in any returned
sequence no `sleeper_berth` event occurs before the pickup (loading) event —
formally, the prefix of the sequence before the first event remarked
"Pickup (Loading)" is sleeper-free, even when leg-1 driving is left
incomplete by a non-positive drivable chunk. -/
theorem c8_no_rest_before_pickup {dist : ℚ × ℚ → ℚ × ℚ → ℚ} {route : RouteResult}
    {startTime : Int} {cfg : HosProfileConfig} {averageSpeed : ℚ} {fuel : Nat}
    {evs : List DutyEvent}
    (hgen : generateDutyEvents dist route startTime cfg averageSpeed fuel = some evs) :
    (∀ fuel2 remaining (s s' : St),
      leg1Loop cfg dist route.polyline averageSpeed fuel2 remaining s = some s' →
      ∀ e ∈ s'.events, e ∈ s.events ∨ e.status = DutyStatus.driving ∨
        e.status = DutyStatus.off_duty) ∧
    (∀ e ∈ evs.takeWhile (fun x => x.remarks ≠ "Pickup (Loading)"),
      e.status ≠ DutyStatus.sleeper_berth) := by
  constructor
  · intro fuel2 r s s' h e he
    rcases leg1Loop_added_events _ _ _ _ h e he with hin | ⟨hst, hrm⟩ | ⟨hst, hrm⟩
    · exact Or.inl hin
    · exact Or.inr (Or.inl hst)
    · exact Or.inr (Or.inr hst)
  · simp only [generateDutyEvents] at hgen
    split at hgen
    · exact absurd hgen (by simp)
    · rename_i s3 h1
      split at hgen
      · exact absurd hgen (by simp)
      · rename_i s5 h2
        have hchar : ∀ e ∈ s3.events,
            ((e.status = DutyStatus.off_duty ∧
                e.remarks = "Off Duty - Continuous Rest Period") ∨
              (e.status = DutyStatus.on_duty_not_driving ∧
                e.remarks = "Pre-trip Inspection")) ∨
            (e.status = DutyStatus.driving ∧
              e.remarks = "Driving to Pickup Location") ∨
            (e.status = DutyStatus.off_duty ∧
              e.remarks = toString cfg.breakRules.breakDurationMinutes ++
                "-min Break") := by
          split at h1
          · intro e he
            rcases leg1Loop_added_events _ _ _ _ h1 e he with hin | hr
            · exact Or.inl (mem_preamble_events hin)
            · exact Or.inr hr
          · intro e he
            have heq := Option.some_inj.mp h1
            exact Or.inl (mem_preamble_events (heq ▸ he))
        have hevs : evs = (postlude dist route averageSpeed s5).events :=
          (Option.some_inj.mp hgen).symm
        obtain ⟨t3, ht3⟩ := (postlude_events_append :
          ∃ tail, (postlude dist route averageSpeed s5).events = s5.events ++ tail)
        obtain ⟨t2, ht2⟩ := leg2Loop_events_append _ _ _ _ h2
        obtain ⟨e4, hs4, hrem4⟩ : ∃ e4, (addWindow 1 (addEvent dist route.polyline
            averageSpeed DutyStatus.on_duty_not_driving 1
            route.points.pickup.address "Pickup (Loading)" s3)).events =
            s3.events ++ [e4] ∧ e4.remarks = "Pickup (Loading)" := ⟨_, rfl, rfl⟩
        have hconcat : evs = s3.events ++ (e4 :: (t2 ++ t3)) := by
          rw [hevs, ht3, ht2, hs4]
          simp [List.append_assoc]
        rw [hconcat]
        rw [takeWhile_middle (fun x => x.remarks ≠ "Pickup (Loading)") s3.events e4
          (t2 ++ t3) ?hall ?hfalse]
        case hfalse => simp [hrem4]
        case hall =>
          intro x hx
          simp only [decide_eq_true_eq]
          rcases hchar x hx with (⟨hst, hrm⟩ | ⟨hst, hrm⟩) | ⟨hst, hrm⟩ | ⟨hst, hrm⟩
          · rw [hrm]; decide
          · rw [hrm]; decide
          · rw [hrm]; decide
          · rw [hrm]; exact break_remark_ne_pickup _
        intro e he
        rcases hchar e he with (⟨hst, hr1⟩ | ⟨hst, hr1⟩) | ⟨hst, hr1⟩ | ⟨hst, hr1⟩ <;>
          rw [hst] <;> decide

/-- C8 witness: the statement applied to the §8 scenario run. -/
theorem c8_no_rest_before_pickup_witness :
    (((generateDutyEvents distAbs20 tripRoute40_60 scenarioStart
      HOS_PROFILE_CONFIG_PROPERTY_CARRYING_US_FMCSA 50 100).getD []).takeWhile
        (fun x => x.remarks ≠ "Pickup (Loading)")).all
      (fun e => e.status != DutyStatus.sleeper_berth) = true := by
  have h := c8_no_rest_before_pickup
    (show generateDutyEvents distAbs20 tripRoute40_60 scenarioStart
      HOS_PROFILE_CONFIG_PROPERTY_CARRYING_US_FMCSA 50 100 =
      some ((generateDutyEvents distAbs20 tripRoute40_60 scenarioStart
        HOS_PROFILE_CONFIG_PROPERTY_CARRYING_US_FMCSA 50 100).getD []) by decide)
  rw [List.all_eq_true]
  intro e he
  have h2 := h.2 e he
  simpa using h2

/-! ## Claim C2 -/

/-- C2 (amended): for every profile whose `breakDurationMinutes` and
`minOffDutyBeforeShiftHours` are nonnegative, every `DailyLog` produced by
`splitEventsIntoDays` from a completed `generateDutyEvents` run has
per-status totals summing to 24 hours within `1e-6`: the schedule covers
whole days from the first local midnight, except that the final pad stops at
23:59:59.999, leaving the last day one millisecond (`1/3600000` h) short. -/
theorem c2_day_totals_sum_to_24 {dist : ℚ × ℚ → ℚ × ℚ → ℚ} {route : RouteResult}
    {startTime : Int} {config : HosProfileConfig} {averageSpeed : ℚ} {fuel : Nat}
    {evs : List DutyEvent}
    (hb : 0 ≤ config.breakRules.breakDurationMinutes)
    (hm : 0 ≤ config.shiftRules.minOffDutyBeforeShiftHours)
    (h : generateDutyEvents dist route startTime config averageSpeed fuel = some evs) :
    ∀ log ∈ splitEventsIntoDays evs averageSpeed,
      |log.totals.sum - 24| ≤ 1 / 1000000 := by
  obtain ⟨T, hch, hwf, hT⟩ := generateDutyEvents_chain hb hm h
  have hinv : SplitInv (dayStart startTime) T
      (evs.foldl (fun l e => splitWalk averageSpeed e l) []) := by
    refine splitFold_inv averageSpeed evs (dayStart startTime) (dayStart startTime) T []
      hch hwf le_rfl ⟨?_, ?_, ?_⟩
    · intro d
      rw [overlap_zero_of_le d le_rfl]
      simp [daySum, lookupLog, emptyLog, Totals.sum, hoursOfMs]
    · intro d hd
      simp [lookupLog] at hd
    · simp
  intro log hlog
  simp only [splitEventsIntoDays, List.mem_map] at hlog
  obtain ⟨p, hp, hp2⟩ := hlog
  rw [mem_sortLogs] at hp
  obtain ⟨hsum, hsome, hnd⟩ := hinv
  have hpl : (p.1, log) ∈ evs.foldl (fun l e => splitWalk averageSpeed e l) [] := by
    have hpe : p = (p.1, log) := by rw [← hp2]
    exact hpe ▸ hp
  have hlook := lookupLog_of_mem hnd hpl
  have hds : daySum (evs.foldl (fun l e => splitWalk averageSpeed e l) []) p.1 =
      log.totals.sum := by
    simp [daySum, hlook]
  have hpos : 0 < overlap (dayStart startTime) T p.1 :=
    hsome p.1 (by rw [hlook]; rfl)
  have hval := (hds.symm).trans (hsum p.1)
  have ht0 : dayStart startTime % 86400000 = 0 := dayStart_emod startTime
  have hcase : overlap (dayStart startTime) T p.1 = 86400000 ∨
      overlap (dayStart startTime) T p.1 = 86399999 := by
    simp only [overlap] at hpos ⊢
    omega
  rw [hval]
  rcases hcase with hc | hc <;> rw [hc] <;> norm_num [hoursOfMs, abs_le]

/-- C2 witness: the amended statement instantiated at the §8 scenario run
(one log, total `86399999/3600000` hours, within `1e-6` of 24). -/
theorem c2_day_totals_witness :
    (0 : ℚ) ≤
      HOS_PROFILE_CONFIG_PROPERTY_CARRYING_US_FMCSA.breakRules.breakDurationMinutes ∧
    ∀ log ∈ splitEventsIntoDays
        ((generateDutyEvents distAbs20 tripRoute40_60 scenarioStart
          HOS_PROFILE_CONFIG_PROPERTY_CARRYING_US_FMCSA 50 100).getD []) 50,
      |log.totals.sum - 24| ≤ 1 / 1000000 :=
  ⟨by decide,
    c2_day_totals_sum_to_24 (by decide) (by decide)
      (show generateDutyEvents distAbs20 tripRoute40_60 scenarioStart
          HOS_PROFILE_CONFIG_PROPERTY_CARRYING_US_FMCSA 50 100 =
        some ((generateDutyEvents distAbs20 tripRoute40_60 scenarioStart
          HOS_PROFILE_CONFIG_PROPERTY_CARRYING_US_FMCSA 50 100).getD []) by decide)⟩

/-- C2 counterexample: the unvalidated profile with
`breakDurationMinutes = -120` produces a generated schedule whose single
daily log totals `93599999/3600000` hours (one millisecond under 26), far
outside `1e-6` of 24 — the invariant as claimed fails on sequences
`generateDutyEvents` actually returns. -/
theorem c2_day_totals_counterexample :
    ∃ log ∈ splitEventsIntoDays
        ((generateDutyEvents distAbs20 tripRouteLeg2_10h scenarioStart
          fmcsaNegativeBreak 50 100).getD []) 50,
      ¬ |log.totals.sum - 24| ≤ 1 / 1000000 := by decide

/-! ## Claim C6 -/

/-- An event whose interior contains exactly one local midnight: either its
end lies strictly inside the calendar day after its start day, or its end
falls exactly on the second midnight (an endpoint on a midnight is a
segment boundary, not an interior crossing). -/
def straddlesOneMidnight (e : DutyEvent) : Prop :=
  (dayIdx e.«end» = dayIdx e.start + 1 ∧ dayStart e.«end» < e.«end») ∨
  (dayIdx e.«end» = dayIdx e.start + 2 ∧ dayStart e.«end» = e.«end»)

/-- A walk whose event crosses exactly one interior midnight performs
exactly two `addSegment` steps, cut at that midnight. -/
theorem splitWalkAux_two_segments (averageSpeed : ℚ) (e : DutyEvent) (n : Nat)
    (logs : List (Int × DailyLog))
    (h1 : e.start < e.«end»)
    (h2 : dayStart e.start + 86400000 < e.«end»)
    (h3 : e.«end» ≤ dayStart e.start + 86400000 + 86400000) :
    splitWalkAux averageSpeed e (n + 2) e.start logs =
      addSegment averageSpeed e (dayStart e.start + 86400000) e.«end»
        (addSegment averageSpeed e e.start (dayStart e.start + 86400000) logs) := by
  have hmin1 : min e.«end» (dayStart e.start + 86400000) =
      dayStart e.start + 86400000 := min_eq_right h2.le
  have hds2 : dayStart (dayStart e.start + 86400000) =
      dayStart e.start + 86400000 := by
    simp only [dayStart]; omega
  have hmin2 : min e.«end» (dayStart e.start + 86400000 + 86400000) = e.«end» :=
    min_eq_left h3
  simp only [splitWalkAux, if_pos h1, hmin1, hds2, hmin2, if_pos h2]
  rw [splitWalkAux_exit averageSpeed e n e.«end» _ (lt_irrefl e.«end»)]

/-- C6 (amended): an event of a contiguous input list that straddles exactly
one local midnight is split by `splitEventsIntoDays` into exactly two
sub-events, cut at that midnight, placed in two `DailyLog`s of consecutive
dates; every sub-event keeps the original's status, remarks and location,
and the two sub-event durations sum to the original duration.  (An event
spanning more than one midnight — which the claim's wording also covers —
is instead split into one sub-event per day touched; see the
counterexample.) -/
theorem c6_midnight_straddle_splits_in_two {e : DutyEvent}
    (h : straddlesOneMidnight e) :
    ∀ (averageSpeed : ℚ) (logs : List (Int × DailyLog)),
      splitWalk averageSpeed e logs =
        addSegment averageSpeed e (dayStart e.start + 86400000) e.«end»
          (addSegment averageSpeed e e.start (dayStart e.start + 86400000) logs) ∧
      dayIdx (dayStart e.start + 86400000) = dayIdx e.start + 1 ∧
      (∀ a b : Int,
        ({ e with start := a, «end» := b } : DutyEvent).status = e.status ∧
        ({ e with start := a, «end» := b } : DutyEvent).remarks = e.remarks ∧
        ({ e with start := a, «end» := b } : DutyEvent).location = e.location) ∧
      hoursOfMs (dayStart e.start + 86400000 - e.start) +
          hoursOfMs (e.«end» - (dayStart e.start + 86400000)) =
        hoursOfMs (e.«end» - e.start) ∧
      (splitEventsIntoDays [e] averageSpeed).map (fun g => (g.date, g.events)) =
        [(dayIdx e.start,
            [{ e with start := e.start, «end» := dayStart e.start + 86400000 }]),
         (dayIdx e.start + 1,
            [{ e with start := dayStart e.start + 86400000, «end» := e.«end» }])] := by
  intro averageSpeed logs
  have hs_lt : e.start < dayStart e.start + 86400000 := lt_dayStart_add e.start
  have hfacts : dayStart e.start + 86400000 < e.«end» ∧
      e.«end» ≤ dayStart e.start + 86400000 + 86400000 ∧
      ∃ k, (dayIdx e.«end» - dayIdx e.start).toNat + 1 = k + 2 := by
    rcases h with ⟨h1, h2⟩ | ⟨h1, h2⟩
    · refine ⟨?_, ?_, 0, ?_⟩ <;>
        · simp only [dayIdx, dayStart] at h1 h2 ⊢
          omega
    · refine ⟨?_, ?_, 1, ?_⟩ <;>
        · simp only [dayIdx, dayStart] at h1 h2 ⊢
          omega
  obtain ⟨hmid, hend, k, hk⟩ := hfacts
  have h1 : e.start < e.«end» := hs_lt.trans hmid
  have hwalk : ∀ lg : List (Int × DailyLog), splitWalk averageSpeed e lg =
      addSegment averageSpeed e (dayStart e.start + 86400000) e.«end»
        (addSegment averageSpeed e e.start (dayStart e.start + 86400000) lg) := by
    intro lg
    simp only [splitWalk]
    rw [hk]
    exact splitWalkAux_two_segments averageSpeed e k lg h1 hmid hend
  have hd1 : dayIdx (dayStart e.start + 86400000) = dayIdx e.start + 1 := by
    simp only [dayIdx, dayStart]; omega
  refine ⟨hwalk logs, hd1, fun a b => ⟨rfl, rfl, rfl⟩, ?_, ?_⟩
  · simp only [hoursOfMs]; push_cast; ring
  · have hne : ¬ (dayIdx e.start = dayIdx (dayStart e.start + 86400000)) := by
      simp only [dayIdx, dayStart]; omega
    have hne' : ¬ (dayIdx e.start = dayIdx e.start + 1) := by omega
    have hle : dayIdx e.start ≤ dayIdx (dayStart e.start + 86400000) := by
      simp only [dayIdx, dayStart]; omega
    have hle' : dayIdx e.start ≤ dayIdx e.start + 1 := by omega
    simp only [splitEventsIntoDays, List.foldl_cons, List.foldl_nil, hwalk,
      addSegment, assocBump, if_neg hne, if_neg hne', sortLogs, insertLog,
      emptyLog, List.nil_append, List.map_cons, List.map_nil,
      apply_ite DailyLog.date, apply_ite DailyLog.events, ite_self, hd1,
      if_pos hle, if_pos hle']

/-- A concrete event from 23:00 of day 0 to 01:00 of day 1 — it straddles
exactly one local midnight. -/
def straddleEvent : DutyEvent :=
  ⟨.off_duty, 82800000, 90000000, "Home Terminal", "Off Duty Rest", 0, 0⟩

/-- C6 witness: the 23:00–01:00 event is split at midnight into two
sub-events in two consecutive daily logs. -/
theorem c6_midnight_straddle_witness :
    (splitEventsIntoDays [straddleEvent] 50).map (fun g => (g.date, g.events)) =
      [(dayIdx straddleEvent.start,
          [{ straddleEvent with
              start := straddleEvent.start
              «end» := dayStart straddleEvent.start + 86400000 }]),
       (dayIdx straddleEvent.start + 1,
          [{ straddleEvent with
              start := dayStart straddleEvent.start + 86400000
              «end» := straddleEvent.«end» }])] :=
  (c6_midnight_straddle_splits_in_two
    (Or.inl ⟨by decide, by decide⟩) 50 []).2.2.2.2

/-- A concrete event from 00:00:00.000 of day 0 to 00:00:00.001 of day 2 —
its interior contains two local midnights. -/
def doubleStraddleEvent : DutyEvent :=
  ⟨.off_duty, 0, 172800001, "Home Terminal", "Off Duty Rest", 0, 0⟩

/-- C6 counterexample: an event whose start and end straddle a local
midnight (here two of them) is split into three sub-events in three
`DailyLog`s, not the claimed "exactly two". -/
theorem c6_three_logs_counterexample :
    dayStart doubleStraddleEvent.start + 86400000 < doubleStraddleEvent.«end» ∧
    (splitEventsIntoDays [doubleStraddleEvent] 1).length = 3 := by decide

/-! ## Claim C9

The scheduler core is rational, but `getDist` itself is the real haversine.
This section embeds `getDist` over `ℝ` (with `Math.atan2` spelled out) and
settles the edge-case contract of `getCoordinateAtDistance` against it. -/

/-- JS `Math.atan2(y, x)` on the reals. -/
noncomputable def atan2 (y x : ℝ) : ℝ :=
  if 0 < x then Real.arctan (y / x)
  else if x < 0 ∧ 0 ≤ y then Real.arctan (y / x) + Real.pi
  else if x < 0 then Real.arctan (y / x) - Real.pi
  else if 0 < y then Real.pi / 2
  else if y < 0 then -(Real.pi / 2)
  else 0

/-- `getDist` of the source: haversine distance in miles (R = 3958.8). -/
noncomputable def getDist (p1 p2 : ℝ × ℝ) : ℝ :=
  let dLat := (p2.1 - p1.1) * Real.pi / 180
  let dLng := (p2.2 - p1.2) * Real.pi / 180
  let a := Real.sin (dLat / 2) * Real.sin (dLat / 2) +
    Real.cos (p1.1 * Real.pi / 180) * Real.cos (p2.1 * Real.pi / 180) *
    Real.sin (dLng / 2) * Real.sin (dLng / 2)
  let c := 2 * atan2 (Real.sqrt a) (Real.sqrt (1 - a))
  3958.8 * c

theorem atan2_nonneg {y x : ℝ} (hy : 0 ≤ y) (hx : 0 ≤ x) : 0 ≤ atan2 y x := by
  unfold atan2
  split_ifs with h1 h2 h3 h4 h5
  · rw [show (0:ℝ) = Real.arctan 0 from Real.arctan_zero.symm]
    exact Real.arctan_strictMono.monotone (div_nonneg hy h1.le)
  · exact absurd h2.1 (not_lt.mpr hx)
  · exact absurd h3 (not_lt.mpr hx)
  · positivity
  · exact absurd h5 (not_lt.mpr hy)
  · exact le_refl 0

theorem getDist_nonneg (p1 p2 : ℝ × ℝ) : 0 ≤ getDist p1 p2 := by
  simp only [getDist]
  refine mul_nonneg (by norm_num) (mul_nonneg (by norm_num) ?_)
  exact atan2_nonneg (Real.sqrt_nonneg _) (Real.sqrt_nonneg _)

theorem polyLength_nonneg {α : Type} [LinearOrderedField α]
    (dist : α × α → α × α → α) (hd : ∀ p q, 0 ≤ dist p q) :
    ∀ l : List (α × α), 0 ≤ polyLength dist l := by
  intro l
  induction l with
  | nil => simp [polyLength]
  | cons p rest ih =>
    cases rest with
    | nil => simp [polyLength]
    | cons q rest' =>
      simp only [polyLength]
      exact add_nonneg (hd p q) ih

theorem coordGo_past_end {α : Type} [LinearOrderedField α]
    (dist : α × α → α × α → α) (hd : ∀ p q, 0 ≤ dist p q) (targetDist : α) :
    ∀ (polyline : List (α × α)) (acc : α) (p : α × α),
      acc + polyLength dist (p :: polyline) < targetDist →
      coordGo dist targetDist acc (p :: polyline) =
        (p :: polyline).getLast (List.cons_ne_nil p polyline) := by
  intro polyline
  induction polyline with
  | nil => intro acc p h; rfl
  | cons q rest ih =>
    intro acc p h
    simp only [polyLength] at h
    have h0 : 0 ≤ polyLength dist (q :: rest) := polyLength_nonneg dist hd _
    have hcond : ¬ targetDist ≤ acc + dist p q := by
      push_neg
      calc acc + dist p q ≤ acc + (dist p q + polyLength dist (q :: rest)) := by linarith
        _ < targetDist := h
    simp only [coordGo, if_neg hcond]
    rw [ih (acc + dist p q) q (by linarith)]
    exact (List.getLast_cons (List.cons_ne_nil q rest)).symm

def polarPolyline : List (ℝ × ℝ) := [(0, 0), (90, 0), (90, 50)]

theorem atan2_self_pos {s : ℝ} (hs : 0 < s) : atan2 s s = Real.pi / 4 := by
  simp only [atan2, if_pos hs]
  rw [div_self (ne_of_gt hs), Real.arctan_one]

theorem getDist_pole_zero : getDist ((90:ℝ), 0) ((90:ℝ), 50) = 0 := by
  have hcos : Real.cos ((90:ℝ) * Real.pi / 180) = 0 := by
    rw [show (90:ℝ) * Real.pi / 180 = Real.pi / 2 by ring]
    exact Real.cos_pi_div_two
  simp only [getDist]
  rw [show (((90:ℝ) - 90) * Real.pi / 180) / 2 = 0 by ring, Real.sin_zero, hcos]
  rw [show (0:ℝ) * 0 + 0 * 0 * Real.sin ((((50:ℝ) - 0) * Real.pi / 180) / 2) *
      Real.sin ((((50:ℝ) - 0) * Real.pi / 180) / 2) = 0 by ring]
  rw [Real.sqrt_zero, show (1:ℝ) - 0 = 1 by ring, Real.sqrt_one]
  simp only [atan2, if_pos (show (0:ℝ) < 1 by norm_num)]
  norm_num [Real.arctan_zero]

theorem getDist_zero_to_pole :
    getDist ((0:ℝ), 0) ((90:ℝ), 0) = 3958.8 * (Real.pi / 2) := by
  have hcos90 : Real.cos ((90:ℝ) * Real.pi / 180) = 0 := by
    rw [show (90:ℝ) * Real.pi / 180 = Real.pi / 2 by ring]
    exact Real.cos_pi_div_two
  have hsin : Real.sin ((((90:ℝ) - 0) * Real.pi / 180) / 2) = Real.sqrt 2 / 2 := by
    rw [show (((90:ℝ) - 0) * Real.pi / 180) / 2 = Real.pi / 4 by ring]
    exact Real.sin_pi_div_four
  have hsin0 : Real.sin ((((0:ℝ) - 0) * Real.pi / 180) / 2) = 0 := by
    rw [show (((0:ℝ) - 0) * Real.pi / 180) / 2 = 0 by ring]
    exact Real.sin_zero
  simp only [getDist]
  rw [hsin, hsin0, hcos90]
  have ha : Real.sqrt 2 / 2 * (Real.sqrt 2 / 2) +
      Real.cos ((0:ℝ) * Real.pi / 180) * 0 * 0 * 0 = 1 / 2 := by
    have h2 : Real.sqrt 2 * Real.sqrt 2 = 2 := Real.mul_self_sqrt (by norm_num)
    nlinarith [h2]
  rw [ha, show (1:ℝ) - 1 / 2 = 1 / 2 by norm_num]
  rw [atan2_self_pos (Real.sqrt_pos.mpr (by norm_num))]
  ring

/-- C9 (amended): `getCoordinateAtDistance` is a pure total function: the
empty polyline yields the `(0, 0)` sentinel, a non-positive target yields
the first vertex, and a target strictly greater than the polyline's total
haversine length yields the last vertex.  (At a target exactly equal to the
total length the last vertex is not guaranteed: a zero-length trailing
segment makes the walk stop at an earlier vertex — see the
counterexample.) -/
theorem c9_position_at_distance_edges (targetDist : ℝ) (polyline : List (ℝ × ℝ)) :
    getCoordinateAtDistance getDist targetDist ([] : List (ℝ × ℝ)) = (0, 0) ∧
    (∀ p rest, polyline = p :: rest → targetDist ≤ 0 →
      getCoordinateAtDistance getDist targetDist polyline = p) ∧
    (∀ (hne : polyline ≠ []), polyLength getDist polyline < targetDist →
      getCoordinateAtDistance getDist targetDist polyline = polyline.getLast hne) := by
  refine ⟨rfl, ?_, ?_⟩
  · intro p rest hpr ht
    subst hpr
    simp only [getCoordinateAtDistance, if_pos ht]
  · intro hne hlt
    obtain ⟨p, rest, rfl⟩ := List.exists_cons_of_ne_nil hne
    have h0 : ¬ targetDist ≤ 0 := by
      have := polyLength_nonneg getDist getDist_nonneg (p :: rest)
      linarith
    simp only [getCoordinateAtDistance, if_neg h0]
    have hgo := coordGo_past_end getDist getDist_nonneg targetDist rest 0 p (by linarith)
    rw [hgo]

/-- C9 witness: a one-vertex polyline has length `0 < 7`, and the walk at
target `7` returns that (last) vertex. -/
theorem c9_position_edges_witness :
    polyLength getDist [((3:ℝ), 4)] < 7 ∧
    getCoordinateAtDistance getDist 7 [((3:ℝ), 4)] = ((3:ℝ), (4:ℝ)) :=
  ⟨by norm_num [polyLength],
    (c9_position_at_distance_edges 7 [((3:ℝ), 4)]).2.2 (by simp)
      (by norm_num [polyLength])⟩

/-- C9 counterexample: on the polyline `(0,0) → (90,0) → (90,50)` the last
segment sits at the pole and has haversine length zero, so the total length
equals the first segment's length; at a target equal to that total —
`target ≥ total`, as the claim reads — the walk interpolates to `(90, 0)`,
not the last vertex `(90, 50)`. -/
theorem c9_last_vertex_counterexample :
    polyLength getDist polarPolyline ≤ getDist ((0:ℝ), 0) ((90:ℝ), 0) ∧
    getCoordinateAtDistance getDist (getDist ((0:ℝ), 0) ((90:ℝ), 0)) polarPolyline =
      ((90:ℝ), (0:ℝ)) ∧
    polarPolyline.getLast? = some ((90:ℝ), (50:ℝ)) ∧
    ((90:ℝ), (0:ℝ)) ≠ ((90:ℝ), (50:ℝ)) := by
  have hpos : 0 < getDist ((0:ℝ), 0) ((90:ℝ), 0) := by
    rw [getDist_zero_to_pole]
    have := Real.pi_pos
    nlinarith
  refine ⟨?_, ?_, rfl, ?_⟩
  · simp only [polarPolyline, polyLength, getDist_pole_zero]
    linarith
  · simp only [polarPolyline, getCoordinateAtDistance, if_neg (not_le.mpr hpos), coordGo]
    rw [if_pos (show getDist ((0:ℝ), 0) ((90:ℝ), 0) ≤
      0 + getDist ((0:ℝ), 0) ((90:ℝ), 0) by linarith)]
    have hfrac : (getDist ((0:ℝ), 0) ((90:ℝ), 0) - 0) / getDist ((0:ℝ), 0) ((90:ℝ), 0) = 1 := by
      rw [sub_zero]
      exact div_self (ne_of_gt hpos)
    rw [hfrac]
    norm_num
  · intro hcontra
    rw [Prod.mk.injEq] at hcontra
    norm_num at hcontra
